import Mathlib

/-!
Verification of the ATK-MD0130 (ST7789V) LCD driver
(`src/drivers/atk_md0130/lcd.rs`, `src/drivers/atk_md0130/type.rs`).

The driver is shallowly embedded: the Rust struct `ATKMD0130` becomes the
`Lcd` record (the SPI/GPIO collaborator handles are replaced by a fault
oracle `World`, since their only observable behaviour inside the driver is
success/failure of each call), and every driver method becomes a function
in the monad `M`, which threads the `Lcd` state, short-circuits on
`SpiError` exactly like Rust's `?`, and records every collaborator call
(pin level set, SPI byte write, delay) in an event trace.

Machine integers: `u16` values are `Nat` with `% 65536` applied exactly
where the Rust expression can wrap; `i16` values are `Int` with the
two's-complement wrap `wrapI16` applied where the Rust expression can wrap.
Where a definition uses plain `Int` arithmetic for an `i16` variable
(the Bresenham walk of `draw_line`), lemmas in this file bound the values
to show the `i16` range is never left under the stated preconditions.
-/

deriving instance DecidableEq for Except

set_option maxRecDepth 200000

namespace Atk

/-- `SpiError` (src/drivers/spi/types.rs). -/
inductive SpiError
  | invalidParameter
  | driverError (code : Int)
  | busBusy
  | timeout
deriving DecidableEq, Repr

/-- `DisplayRotation` (src/drivers/atk_md0130/type.rs). -/
inductive DisplayRotation
  | portrait
  | landscape
  | portraitFlipped
  | landscapeFlipped
deriving DecidableEq, Repr

/-- `ColorFormat` (src/drivers/atk_md0130/type.rs). -/
inductive ColorFormat
  | rgb565
  | rgb888
deriving DecidableEq, Repr

/-- Command opcodes used by the driver (module `cmd` in type.rs). -/
def SLPOUT : Nat := 0x11
def INVON : Nat := 0x21
def DISPON : Nat := 0x29
def CASET : Nat := 0x2A
def RASET : Nat := 0x2B
def RAMWR : Nat := 0x2C
def MADCTL : Nat := 0x36
def COLMOD : Nat := 0x3A
def GMCTRP1 : Nat := 0xE0
def GMCTRN1 : Nat := 0xE1

/-- MADCTL bits (module `madctl` in type.rs). -/
def MY : Nat := 0x80
def MX : Nat := 0x40
def MV : Nat := 0x20
def BGR : Nat := 0x08

/-- `DISPLAY_WIDTH` (type.rs). -/
def DISPLAY_WIDTH : Nat := 240
/-- `DISPLAY_HEIGHT` (type.rs). -/
def DISPLAY_HEIGHT : Nat := 240

/-- The three GPIO lines the driver drives. -/
inductive PinId
  | dc
  | rst
  | bl
deriving DecidableEq, Repr

/-- Fault oracle for the collaborators: a pin flag set means every level-set
on that pin reports a `GpioError`; `spiFail = some e` means every SPI
`write` reports the bus fault `e`. -/
structure World where
  dcFail : Bool
  rstFail : Bool
  blFail : Bool
  spiFail : Option SpiError
deriving DecidableEq, Repr

def World.pinFails (w : World) : PinId → Bool
  | .dc => w.dcFail
  | .rst => w.rstFail
  | .bl => w.blFail

/-- The driver state: the cached fields of the Rust struct `ATKMD0130`.
The collaborator handles are summarised by `world` (their fault behaviour)
and `hasBl` (whether `bl_pin` is `Some`). -/
structure Lcd where
  world : World
  hasBl : Bool
  rotation : DisplayRotation
  colorFormat : ColorFormat
  windowXStart : Nat
  windowYStart : Nat
  windowWidth : Nat
  windowHeight : Nat
deriving DecidableEq, Repr

/-- One observable collaborator call: pin level set, SPI write (with the
bytes put on the bus), or a blocking delay.  `ok` records whether the
collaborator reported success. -/
inductive Ev
  | pinSet (p : PinId) (high : Bool) (ok : Bool)
  | spiWrite (bytes : List Nat) (ok : Bool)
  | sleepMs (ms : Nat)
deriving DecidableEq, Repr

def Ev.isFault : Ev → Bool
  | .pinSet _ _ ok => !ok
  | .spiWrite _ ok => !ok
  | .sleepMs _ => false

def Ev.isRstPin : Ev → Bool
  | .pinSet .rst _ _ => true
  | _ => false

/-- Concatenation of the bytes of all SPI writes issued while the DC line
is high (the data phase of the wire protocol); the Bool argument is the
current DC level, initially high/low as given. -/
def dataPhaseBytes : Bool → List Ev → List Nat
  | _, [] => []
  | _, .pinSet .dc h _ :: r => dataPhaseBytes h r
  | dc, .spiWrite bs _ :: r => (if dc then bs else []) ++ dataPhaseBytes dc r
  | dc, _ :: r => dataPhaseBytes dc r

/-- Bytes of all SPI writes in a trace, command and data phase alike. -/
def allBusBytes (tr : List Ev) : List Nat :=
  tr.flatMap fun e => match e with
    | .spiWrite bs _ => bs
    | _ => []

/-- The driver monad: state (`Lcd`), error short-circuiting (`Except`)
and an event trace, mirroring `&mut self` methods returning `SpiResult`.
On an error the state and trace accumulated so far are kept, as they are
in Rust (the caller still owns the mutated struct). -/
def M (α : Type) : Type := Lcd → Except SpiError α × Lcd × List Ev

def M.pure (a : α) : M α := fun s => (.ok a, s, [])

def M.bind (m : M α) (f : α → M β) : M β := fun s =>
  match m s with
  | (.error e, s', tr) => (.error e, s', tr)
  | (.ok a, s', tr) =>
    match f a s' with
    | (r, s'', tr') => (r, s'', tr ++ tr')

instance : Monad M where
  pure := M.pure
  bind := M.bind

def M.throw (e : SpiError) : M α := fun s => (.error e, s, [])

def M.get : M Lcd := fun s => (.ok s, s, [])

def M.modify (f : Lcd → Lcd) : M Unit := fun s => (.ok (), f s, [])

/-- `pin.set_high()` / `pin.set_low()`: emits the event and returns whether
the GPIO collaborator reported success (call sites translate a `false`
into the `SpiError` their `map_err` chooses, or discard it). -/
def pinSetOp (p : PinId) (high : Bool) : M Bool := fun s =>
  let ok := !(s.world.pinFails p)
  (.ok ok, s, [.pinSet p high ok])

/-- `spi_device.write(bytes)`. -/
def spiWriteOp (bytes : List Nat) : M Unit := fun s =>
  match s.world.spiFail with
  | some e => (.error e, s, [.spiWrite bytes false])
  | none => (.ok (), s, [.spiWrite bytes true])

/-- `thread::sleep` / delay. -/
def sleepOp (ms : Nat) : M Unit := fun s => (.ok (), s, [.sleepMs ms])

/-- u16 wrap. -/
def u16 (n : Nat) : Nat := n % 65536

/-- u16 subtraction `a - b` (wrapping), for `a b < 65536`. -/
def u16sub (a b : Nat) : Nat := (a + 65536 - b) % 65536

/-- u8 cast of a u16 value (`v as u8`). -/
def u8 (n : Nat) : Nat := n % 256

/-- `(data >> 8) as u8`. -/
def hiByte (v : Nat) : Nat := u8 (v / 256)

/-- `data as u8`. -/
def loByte (v : Nat) : Nat := u8 v

/-- i16 two's-complement wrap of an integer. -/
def wrapI16 (z : Int) : Int := (z + 32768) % 65536 - 32768

/-- `y as u16` for an i16 value `z`. -/
def u16OfI16 (z : Int) : Nat := (z % 65536).toNat

/-- `w as i16` for a u16 value `n`. -/
def i16OfU16 (n : Nat) : Int := wrapI16 n

/-- `write_command` (lcd.rs 168-173): pull DC low, then one command byte. -/
def writeCommand (c : Nat) : M Unit := do
  let ok ← pinSetOp .dc false
  if ok then spiWriteOp [c] else M.throw (.driverError (-1))

/-- `write_data` (lcd.rs 176-181): pull DC high, then the data bytes. -/
def writeData (bs : List Nat) : M Unit := do
  let ok ← pinSetOp .dc true
  if ok then spiWriteOp bs else M.throw (.driverError (-1))

/-- `write_data_u16` (lcd.rs 184-187): two bytes, most significant first. -/
def writeDataU16 (v : Nat) : M Unit :=
  writeData [hiByte v, loByte v]

/-- `set_address_window` (lcd.rs 190-205). -/
def setAddressWindow (x0 y0 x1 y1 : Nat) : M Unit := do
  writeCommand CASET
  writeDataU16 x0
  writeDataU16 x1
  writeCommand RASET
  writeDataU16 y0
  writeDataU16 y1
  writeCommand RAMWR

/-- The MADCTL byte chosen by `set_rotation` (lcd.rs 209-214). -/
def rotationValue : DisplayRotation → Nat
  | .portrait => MX ||| BGR
  | .landscape => MV ||| BGR
  | .portraitFlipped => MY ||| BGR
  | .landscapeFlipped => MV ||| MY ||| BGR

/-- The width/height the match of lcd.rs 220-229 assigns: Portrait and
PortraitFlipped keep the native (width, height), Landscape and
LandscapeFlipped swap them. -/
def rotationDims : DisplayRotation → Nat × Nat
  | .portrait | .portraitFlipped => (DISPLAY_WIDTH, DISPLAY_HEIGHT)
  | .landscape | .landscapeFlipped => (DISPLAY_HEIGHT, DISPLAY_WIDTH)

/-- `set_rotation` (lcd.rs 208-233). -/
def setRotation (r : DisplayRotation) : M Unit := do
  writeCommand MADCTL
  writeData [rotationValue r]
  M.modify fun s =>
    { s with windowWidth := (rotationDims r).1, windowHeight := (rotationDims r).2 }
  M.modify fun s => { s with rotation := r }

/-- `set_color_format` (lcd.rs 236-247). -/
def setColorFormat (f : ColorFormat) : M Unit := do
  let v : Nat := match f with
    | .rgb565 => 0x55
    | .rgb888 => 0x66
  writeCommand COLMOD
  writeData [v]
  M.modify fun s => { s with colorFormat := f }

/-- `set_backlight` (lcd.rs 250-259). -/
def setBacklight (turnOn : Bool) : M Unit := do
  let s ← M.get
  if s.hasBl then do
    let ok ← pinSetOp .bl turnOn
    if ok then M.pure () else M.throw (.driverError (-1))
  else M.pure ()

/-- `draw_pixel` (lcd.rs 262-269). -/
def drawPixel (x y color : Nat) : M Unit := do
  let s ← M.get
  if x ≥ s.windowWidth ∨ y ≥ s.windowHeight then M.pure ()
  else do
    setAddressWindow x y x y
    writeDataU16 color

/-- The 128-byte colour buffer `fill_rect` pre-fills (lcd.rs 298-305):
`buffer[2*i] = color >> 8`, `buffer[2*i+1] = color as u8` for `i < 64`. -/
def colorBuffer (color : Nat) : List Nat :=
  (List.replicate 64 [hiByte color, loByte color]).flatten

/-- The chunked transmission loop of `fill_rect` (lcd.rs 307-313):
while pixels remain, send `min remaining 64` pixels' worth of the buffer.
The first argument is structural fuel; since every pass sends at least one
pixel, fuel equal to the initial pixel count (as supplied by `fillChunks`)
always suffices, so the fuel-exhaustion branch is unreachable. -/
def fillChunksF (buffer : List Nat) : Nat → Nat → M Unit
  | _, 0 => M.pure ()
  | 0, _ + 1 => M.pure ()
  | fuel + 1, remaining + 1 =>
    let chunk := Nat.min (remaining + 1) 64
    do
      spiWriteOp (buffer.take (chunk * 2))
      fillChunksF buffer fuel (remaining + 1 - chunk)

/-- The chunk loop entered with `remaining = num_pixels`. -/
def fillChunks (buffer : List Nat) (remaining : Nat) : M Unit :=
  fillChunksF buffer remaining remaining

/-- The clipped far corner `(x + width - 1).min(window_width - 1)` in
wrapping u16 arithmetic (lcd.rs 284-285). -/
def clipEnd (a len bound : Nat) : Nat :=
  Nat.min (u16sub (u16 (a + len)) 1) (bound - 1)

/-- The pixel count `(x1 - x + 1) as usize * (y1 - y + 1) as usize`
(lcd.rs 290), each factor computed in wrapping u16. -/
def numPixels (x y x1 y1 : Nat) : Nat :=
  u16 (u16sub x1 x + 1) * u16 (u16sub y1 y + 1)

/-- `fill_rect` (lcd.rs 272-316). -/
def fillRect (x y width height color : Nat) : M Unit := do
  let s ← M.get
  if x ≥ s.windowWidth ∨ y ≥ s.windowHeight then M.pure ()
  else do
    let x1 := clipEnd x width s.windowWidth
    let y1 := clipEnd y height s.windowHeight
    setAddressWindow x y x1 y1
    let ok ← pinSetOp .dc true
    if ok then fillChunks (colorBuffer color) (numPixels x y x1 y1)
    else M.throw (.driverError (-1))

/-- `draw_hline` (lcd.rs 319-321). -/
def drawHline (x y width color : Nat) : M Unit :=
  fillRect x y width 1 color

/-- `draw_vline` (lcd.rs 324-326). -/
def drawVline (x y height color : Nat) : M Unit :=
  fillRect x y 1 height color

/-- One step of the Bresenham walk of `draw_line` (lcd.rs 357-366): with
the saved error `err2 = err`, advance `x` by `sx` when `err2 > -dx`
(subtracting `dy` from `err`), advance `y` by `sy` when `err2 < dy`
(adding `dx` to `err`).  `i16` arithmetic is modelled on `Int`; the
invariants proven below keep every value inside the `i16` range whenever
`dx` and `dy` are themselves representable. -/
def lineStep (dx dy sx sy : Int) : Int × Int × Int → Int × Int × Int :=
  fun state =>
    let x := state.1
    let y := state.2.1
    let err := state.2.2
    let err2 := err
    let x' := if err2 > -dx then x + sx else x
    let errA := if err2 > -dx then err - dy else err
    let y' := if err2 < dy then y + sy else y
    let errB := if err2 < dy then errA + dx else errA
    (x', y', errB)

/-- The loop body of `draw_line` (lcd.rs 346-367), with explicit fuel:
plot the current point when it lies inside the drawable region, stop
(returning `true`) on reaching `(x1, y1)`, otherwise step.  Fuel
exhaustion returns `false`; `lineFuel` below always suffices for
i16-representable deltas (theorem for claim C8). -/
def drawLineLoop (dx dy sx sy x1 y1 : Int) (color : Nat) :
    Nat → Int → Int → Int → M Bool
  | 0, _, _, _ => M.pure false
  | fuel + 1, x, y, err => do
    let s ← M.get
    if 0 ≤ x ∧ x < i16OfU16 s.windowWidth ∧ 0 ≤ y ∧ y < i16OfU16 s.windowHeight then
      drawPixel x.toNat y.toNat color
    else M.pure ()
    if x = x1 ∧ y = y1 then M.pure true
    else
      let nx := lineStep dx dy sx sy (x, y, err)
      drawLineLoop dx dy sx sy x1 y1 color fuel nx.1 nx.2.1 nx.2.2

/-- Fuel bound for the Bresenham walk: `dx + dy + 1` iterations. -/
def lineFuel (dx dy : Int) : Nat := (dx + dy).toNat + 1

/-- `draw_line` (lcd.rs 329-370).  `dx`, `dy`, `sx`, `sy` and the error
initialisation `(if dx > dy then dx else -dy) / 2` (truncating division)
are exactly the source's; endpoint coordinates are i16 values carried on
`Int`. -/
def drawLine (x0 y0 x1 y1 : Int) (color : Nat) : M Unit := do
  let dx := if x0 > x1 then x0 - x1 else x1 - x0
  let dy := if y0 > y1 then y0 - y1 else y1 - y0
  let sx : Int := if x0 < x1 then 1 else -1
  let sy : Int := if y0 < y1 then 1 else -1
  let err := Int.tdiv (if dx > dy then dx else -dy) 2
  let _ ← drawLineLoop dx dy sx sy x1 y1 color (lineFuel dx dy) x0 y0 err
  M.pure ()

/-- `draw_rect` (lcd.rs 373-387). -/
def drawRect (x y width height color : Nat) : M Unit := do
  drawHline x y width color
  drawHline x (u16 (u16sub (u16 (y + height)) 1)) width color
  drawVline x y height color
  drawVline (u16 (u16sub (u16 (x + width)) 1)) y height color

/-- The state of the midpoint-circle loop: `x : u16`, `y err : i16`
(`y` and `err` carried on `Int`, wrapped by `wrapI16` at each update). -/
structure CState where
  x : Nat
  y : Int
  err : Int
deriving DecidableEq, Repr

/-- Initial midpoint-circle state (lcd.rs 397-399): `x = radius`,
`y = 0`, `err = 0`. -/
def circleInit (radius : Nat) : CState := ⟨u16 radius, 0, 0⟩

/-- The loop guard `x >= y as u16` (lcd.rs 401 / 436). -/
def circleGuard (s : CState) : Prop := u16OfI16 s.y ≤ s.x

instance (s : CState) : Decidable (circleGuard s) := by
  unfold circleGuard; infer_instance

/-- The shared recurrence of `draw_circle` and `fill_circle`
(lcd.rs 411-418 / 442-449): `y += 1`; if `err <= 0` then
`err += 2*y + 1`; if `err > 0` then `x -= 1; err -= 2*x + 1` (with the
new `x`, read back as i16).  All i16 operations wrap; the u16 `x -= 1`
wraps. -/
def circleStep (s : CState) : CState :=
  let y1 := wrapI16 (s.y + 1)
  let errA := if s.err ≤ 0 then wrapI16 (s.err + 2 * y1 + 1) else s.err
  let x1 := if errA > 0 then u16sub s.x 1 else s.x
  let errB := if errA > 0 then wrapI16 (errA - (2 * i16OfU16 x1 + 1)) else errA
  ⟨x1, y1, errB⟩

/-- States the circle loops can be in: the initial state, and the step of
any reachable state in which the loop guard held. -/
inductive CircleReach (radius : Nat) : CState → Prop
  | init : CircleReach radius (circleInit radius)
  | step {s : CState} : CircleReach radius s → circleGuard s →
      CircleReach radius (circleStep s)

/-- The eight symmetric plots of one `draw_circle` iteration
(lcd.rs 402-409), in source order, with wrapping u16 coordinate
arithmetic. -/
def circlePlots (xc yc : Nat) (s : CState) : List (Nat × Nat) :=
  let x := s.x
  let yu := u16OfI16 s.y
  [ (u16 (xc + x), u16 (yc + yu)),
    (u16 (xc + yu), u16 (yc + x)),
    (u16sub xc yu, u16 (yc + x)),
    (u16sub xc x, u16 (yc + yu)),
    (u16sub xc x, u16sub yc yu),
    (u16sub xc yu, u16sub yc x),
    (u16 (xc + yu), u16sub yc x),
    (u16 (xc + x), u16sub yc yu) ]

/-- Upper bound on the number of iterations either circle loop can make:
`y` starts at 0, increases by 1 every iteration, and once it wraps at
32767 the guard `x >= y as u16` fails for every u16 `x`; so at most
32769 iterations run.  40000 is a comfortable fuel bound. -/
def circleFuel : Nat := 40000

/-- The loop of `draw_circle` (lcd.rs 401-419), with fuel. -/
def drawCircleLoop (xc yc color : Nat) : Nat → CState → M Unit
  | 0, _ => M.pure ()
  | fuel + 1, s =>
    if circleGuard s then do
      let _ ← (circlePlots xc yc s).mapM fun p => drawPixel p.1 p.2 color
      drawCircleLoop xc yc color fuel (circleStep s)
    else M.pure ()

/-- `draw_circle` (lcd.rs 390-422). -/
def drawCircle (xc yc radius color : Nat) : M Unit :=
  drawCircleLoop xc yc color circleFuel (circleInit radius)

/-- The four horizontal spans of one `fill_circle` iteration
(lcd.rs 437-440), in source order: `(x, y, width)` arguments of the
`draw_hline` calls, with wrapping u16 arithmetic. -/
def circleSpans (xc yc : Nat) (s : CState) : List (Nat × Nat × Nat) :=
  let x := s.x
  let yu := u16OfI16 s.y
  [ (u16sub xc x, u16 (yc + yu), u16 (2 * x + 1)),
    (u16sub xc yu, u16 (yc + x), u16 (2 * yu + 1)),
    (u16sub xc x, u16sub yc yu, u16 (2 * x + 1)),
    (u16sub xc yu, u16sub yc x, u16 (2 * yu + 1)) ]

/-- The loop of `fill_circle` (lcd.rs 436-450), with fuel. -/
def fillCircleLoop (xc yc color : Nat) : Nat → CState → M Unit
  | 0, _ => M.pure ()
  | fuel + 1, s =>
    if circleGuard s then do
      let _ ← (circleSpans xc yc s).mapM fun sp => drawHline sp.1 sp.2.1 sp.2.2 color
      fillCircleLoop xc yc color fuel (circleStep s)
    else M.pure ()

/-- `fill_circle` (lcd.rs 425-453). -/
def fillCircle (xc yc radius color : Nat) : M Unit :=
  fillCircleLoop xc yc color circleFuel (circleInit radius)

/-- `draw_image` (lcd.rs 456-495). -/
def drawImage (x y width height : Nat) (imageData : List Nat) : M Unit := do
  let s ← M.get
  if x ≥ s.windowWidth ∨ y ≥ s.windowHeight ∨ width = 0 ∨ height = 0 then M.pure ()
  else do
    let xEnd := clipEnd x width s.windowWidth
    let yEnd := clipEnd y height s.windowHeight
    let actualWidth := u16 (u16sub xEnd x + 1)
    let actualHeight := u16 (u16sub yEnd y + 1)
    setAddressWindow x y xEnd yEnd
    let nPix := actualWidth * actualHeight
    if nPix > imageData.length then M.throw .invalidParameter
    else do
      let dataBuffer := (imageData.take nPix).flatMap fun c => [hiByte c, loByte c]
      let ok ← pinSetOp .dc true
      if ok then spiWriteOp dataBuffer else M.throw (.driverError (-1))

/-- `hardware_reset` (lcd.rs 158-165): the three reset-pin level sets,
each with `unwrap_or(())` — a reported pin fault is discarded. -/
def hardwareReset : M Unit := do
  let _ ← pinSetOp .rst true
  sleepOp 10
  let _ ← pinSetOp .rst false
  sleepOp 10
  let _ ← pinSetOp .rst true
  sleepOp 120

/-- The positive gamma table (lcd.rs 129-132). -/
def gammaP : List Nat :=
  [0x0f, 0x22, 0x1C, 0x1B, 0x08, 0x0F, 0x48, 0xB8, 0x34, 0x05, 0x0C, 0x09, 0x0F, 0x07, 0x00]

/-- The negative gamma table (lcd.rs 135-138). -/
def gammaN : List Nat :=
  [0x0F, 0x23, 0x1C, 0x1B, 0x09, 0x10, 0x48, 0xB8, 0x34, 0x05, 0x0C, 0x09, 0x0F, 0x07, 0x00]

/-- The backlight block of `initialize` (lcd.rs 147-149): if a backlight
pin is configured, drive it high, propagating a pin fault as
`DriverError(-1)`. -/
def initBacklightOn : M Unit := do
  let s ← M.get
  if s.hasBl then do
    let ok ← pinSetOp .bl true
    if ok then M.pure () else M.throw (.driverError (-1))
  else M.pure ()

/-- The clear-to-black of `initialize` (lcd.rs 152):
`fill_rect(0, 0, window_width, window_height, 0x0000)`. -/
def initClear : M Unit := do
  let s ← M.get
  fillRect 0 0 s.windowWidth s.windowHeight 0x0000

/-- `initialize` (lcd.rs 110-155): reset, sleep-out, colour format,
rotation, inversion on, gamma tables, display on, backlight on when
present, clear to black. -/
def initDisplay : M Unit := do
  hardwareReset
  writeCommand SLPOUT
  sleepOp 120
  setColorFormat .rgb565
  setRotation .portrait
  writeCommand INVON
  writeCommand GMCTRP1
  writeData gammaP
  writeCommand GMCTRN1
  writeData gammaN
  sleepOp 10
  writeCommand DISPON
  sleepOp 120
  initBacklightOn
  initClear

/-- The struct literal of `ATKMD0130::new` (lcd.rs 90-102), before
`initialize` runs: rotation Portrait, colour format RGB565, window origin
(0,0), extent the native panel size. -/
def newLcdState (w : World) (hasBl : Bool) : Lcd :=
  { world := w, hasBl := hasBl, rotation := .portrait, colorFormat := .rgb565,
    windowXStart := 0, windowYStart := 0,
    windowWidth := DISPLAY_WIDTH, windowHeight := DISPLAY_HEIGHT }

/-- A fault-free collaborator world. -/
def cleanWorld : World := ⟨false, false, false, none⟩

/-- A world in which the collaborators never fail, except possibly the
reset pin (whose faults `hardware_reset` discards). -/
def World.benign (w : World) : Prop :=
  w.dcFail = false ∧ w.blFail = false ∧ w.spiFail = none

/-- The driver state after a fault-free construction: 240x240 portrait. -/
def lcd240 : Lcd := newLcdState cleanWorld false

section Runs

variable {α β : Type}

theorem bind_eq (m : M α) (f : α → M β) : (m >>= f) = M.bind m f := rfl

theorem pure_eq (a : α) : (Pure.pure a : M α) = M.pure a := rfl

/-- After a successful prefix, `bind` appends the continuation's trace. -/
theorem M_bind_ok {m : M α} {s s1 : Lcd} {a : α} {tr1 : List Ev}
    (h : m s = (.ok a, s1, tr1)) (f : α → M β) :
    M.bind m f s = ((f a s1).1, (f a s1).2.1, tr1 ++ (f a s1).2.2) := by
  unfold M.bind
  rw [h]

/-- Whatever the continuation does, the prefix's trace stays in front. -/
theorem M_bind_trace_mem {m : M α} {s s1 : Lcd} {a : α} {tr1 : List Ev} {e : Ev}
    (h : m s = (.ok a, s1, tr1)) (f : α → M β) (he : e ∈ tr1) :
    e ∈ (M.bind m f s).2.2 := by
  rw [M_bind_ok h]
  exact List.mem_append_left _ he

theorem writeCommand_run (c : Nat) (s : Lcd) (hdc : s.world.dcFail = false)
    (hspi : s.world.spiFail = none) :
    writeCommand c s = (.ok (), s, [.pinSet .dc false true, .spiWrite [c] true]) := by
  simp [writeCommand, bind_eq, M.bind, pinSetOp, spiWriteOp, World.pinFails, hdc, hspi]

theorem writeData_run (bs : List Nat) (s : Lcd) (hdc : s.world.dcFail = false)
    (hspi : s.world.spiFail = none) :
    writeData bs s = (.ok (), s, [.pinSet .dc true true, .spiWrite bs true]) := by
  simp [writeData, bind_eq, M.bind, pinSetOp, spiWriteOp, World.pinFails, hdc, hspi]

theorem writeDataU16_run (v : Nat) (s : Lcd) (hdc : s.world.dcFail = false)
    (hspi : s.world.spiFail = none) :
    writeDataU16 v s = (.ok (), s, [.pinSet .dc true true, .spiWrite [hiByte v, loByte v] true]) := by
  simp [writeDataU16, writeData_run _ _ hdc hspi]

/-- The event trace of a fault-free `set_address_window x0 y0 x1 y1`. -/
def awEvs (x0 y0 x1 y1 : Nat) : List Ev :=
  [.pinSet .dc false true, .spiWrite [CASET] true,
   .pinSet .dc true true, .spiWrite [hiByte x0, loByte x0] true,
   .pinSet .dc true true, .spiWrite [hiByte x1, loByte x1] true,
   .pinSet .dc false true, .spiWrite [RASET] true,
   .pinSet .dc true true, .spiWrite [hiByte y0, loByte y0] true,
   .pinSet .dc true true, .spiWrite [hiByte y1, loByte y1] true,
   .pinSet .dc false true, .spiWrite [RAMWR] true]

theorem setAddressWindow_run (x0 y0 x1 y1 : Nat) (s : Lcd) (hdc : s.world.dcFail = false)
    (hspi : s.world.spiFail = none) :
    setAddressWindow x0 y0 x1 y1 s = (.ok (), s, awEvs x0 y0 x1 y1) := by
  simp [setAddressWindow, bind_eq, M.bind, writeCommand_run _ _ hdc hspi,
    writeDataU16_run _ _ hdc hspi, awEvs]

theorem hardwareReset_run (s : Lcd) :
    hardwareReset s = (.ok (), s,
      [.pinSet .rst true (!s.world.rstFail), .sleepMs 10,
       .pinSet .rst false (!s.world.rstFail), .sleepMs 10,
       .pinSet .rst true (!s.world.rstFail), .sleepMs 120]) := by
  simp [hardwareReset, bind_eq, M.bind, pinSetOp, sleepOp, World.pinFails]

/-- The event trace of a fault-free in-bounds `draw_pixel x y color`. -/
def pixelEvs (x y color : Nat) : List Ev :=
  awEvs x y x y ++ [.pinSet .dc true true, .spiWrite [hiByte color, loByte color] true]

theorem drawPixel_run_in (x y c : Nat) (s : Lcd) (hdc : s.world.dcFail = false)
    (hspi : s.world.spiFail = none) (hx : x < s.windowWidth) (hy : y < s.windowHeight) :
    drawPixel x y c s = (.ok (), s, pixelEvs x y c) := by
  have hcond : ¬(x ≥ s.windowWidth ∨ y ≥ s.windowHeight) := by
    push_neg
    exact ⟨hx, hy⟩
  simp [drawPixel, bind_eq, M.bind, M.get, hcond, setAddressWindow_run _ _ _ _ _ hdc hspi,
    writeDataU16_run _ _ hdc hspi, pixelEvs]

theorem drawPixel_run_out (x y c : Nat) (s : Lcd)
    (h : x ≥ s.windowWidth ∨ y ≥ s.windowHeight) :
    drawPixel x y c s = (.ok (), s, []) := by
  simp [drawPixel, bind_eq, M.bind, M.get, h, M.pure]

end Runs

/-- C1, counterexample.  On the fault-free 240x240 display,
`draw_image(0, 0, 2, 1, [c])` supplies 1 pixel for a 2-pixel clipped
rectangle: it does return `InvalidParameter`, but data-phase bus writes
(the CASET/RASET coordinate parameters of `set_address_window`) have
already been issued before the validation check, contradicting the
claim that the validation precedes any bus traffic. -/
theorem C1_counterexample :
    (drawImage 0 0 2 1 [7] lcd240).1 = .error .invalidParameter ∧
    dataPhaseBytes false ((drawImage 0 0 2 1 [7] lcd240).2.2) ≠ [] := by decide

/-- C1, amended: if `draw_image` is called with an in-bounds origin,
non-zero width/height, and a pixel array shorter than the clipped
rectangle's pixel count, then (on a fault-free bus) it returns
`InvalidParameter`, the cached state is unchanged, and the bus traffic
issued before the failure is exactly the address-window sequence
(CASET/RASET/RAMWR with their coordinate data bytes) — the validation
check runs after `set_address_window`, and no pixel data is written. -/
theorem C1_short_image_rejected_after_window (s : Lcd) (x y w h : Nat) (data : List Nat)
    (hdc : s.world.dcFail = false) (hspi : s.world.spiFail = none)
    (hx : x < s.windowWidth) (hy : y < s.windowHeight) (hw : w ≠ 0) (hh : h ≠ 0)
    (hlen : data.length <
      u16 (u16sub (clipEnd x w s.windowWidth) x + 1) *
        u16 (u16sub (clipEnd y h s.windowHeight) y + 1)) :
    drawImage x y w h data s =
      (.error .invalidParameter, s,
        awEvs x y (clipEnd x w s.windowWidth) (clipEnd y h s.windowHeight)) := by
  have hcond : ¬(x ≥ s.windowWidth ∨ y ≥ s.windowHeight ∨ w = 0 ∨ h = 0) := by
    push_neg
    exact ⟨hx, hy, hw, hh⟩
  simp [drawImage, bind_eq, M.bind, M.get, hcond,
    setAddressWindow_run _ _ _ _ _ hdc hspi, hlen, M.throw]

/-- C1, witness: the amended theorem applied at the counterexample input. -/
theorem C1_short_image_rejected_after_window_witness :
    ([(7 : Nat)].length <
      u16 (u16sub (clipEnd 0 2 lcd240.windowWidth) 0 + 1) *
        u16 (u16sub (clipEnd 0 1 lcd240.windowHeight) 0 + 1)) ∧
    drawImage 0 0 2 1 [7] lcd240 =
      (.error .invalidParameter, lcd240,
        awEvs 0 0 (clipEnd 0 2 lcd240.windowWidth) (clipEnd 0 1 lcd240.windowHeight)) :=
  ⟨by decide,
   C1_short_image_rejected_after_window lcd240 0 0 2 1 [7] rfl rfl (by decide) (by decide)
     (by decide) (by decide) (by decide)⟩

/-- C2: evaluation of `fill_rect` at the failing inputs.  On the
fault-free 240x240 display, `fill_rect` with `width = 0` and an in-bounds
origin is not a silent no-op.  With origin (0,0): the u16 expression
`x + width - 1` wraps to 65535, the clipped end becomes 239, the computed
pixel count is 240, the call succeeds and emits the address-window
sequence plus 240 pixels of data (488 data-phase bytes: 8 window
coordinate bytes + 480 pixel bytes).  With origin (1,0): the call
succeeds, streams no pixels (the wrapped count is 0), but still emits the
address-window sequence — nonempty bus traffic either way, where the
claim (and spec section 7) requires none. -/
theorem C2_zero_width_fill_rect_behavior :
    (fillRect 0 0 0 1 0x1234 lcd240).1 = .ok () ∧
    numPixels 0 0 (clipEnd 0 0 lcd240.windowWidth) (clipEnd 0 1 lcd240.windowHeight) = 240 ∧
    (dataPhaseBytes false (fillRect 0 0 0 1 0x1234 lcd240).2.2).length = 8 + 2 * 240 ∧
    (fillRect 1 0 0 5 0x1234 lcd240).1 = .ok () ∧
    numPixels 1 0 (clipEnd 1 0 lcd240.windowWidth) (clipEnd 0 5 lcd240.windowHeight) = 0 ∧
    (fillRect 1 0 0 5 0x1234 lcd240).2.2 ≠ [] := by decide

section LinePure

/-- `wrapI16` never exceeds its (nonnegative) argument. -/
theorem wrapI16_le_self (n : Nat) : wrapI16 (n : Int) ≤ (n : Int) := by
  unfold wrapI16
  omega

theorem toNat_lt_of_lt_i16OfU16 {x : Int} {n : Nat} (h0 : 0 ≤ x) (h : x < i16OfU16 n) :
    x.toNat < n := by
  unfold i16OfU16 wrapI16 at h
  omega

/-- Pure mirror of the Bresenham loop: the points it plots (the in-window
ones, in order) and whether it reached `(x1, y1)` within the fuel. -/
def linePtsLoop (ww wh : Nat) (dx dy sx sy x1 y1 : Int) :
    Nat → Int → Int → Int → List (Nat × Nat) × Bool
  | 0, _, _, _ => ([], false)
  | fuel + 1, x, y, err =>
    let here : List (Nat × Nat) :=
      if 0 ≤ x ∧ x < i16OfU16 ww ∧ 0 ≤ y ∧ y < i16OfU16 wh then [(x.toNat, y.toNat)] else []
    if x = x1 ∧ y = y1 then (here, true)
    else
      let nx := lineStep dx dy sx sy (x, y, err)
      let rest := linePtsLoop ww wh dx dy sx sy x1 y1 fuel nx.1 nx.2.1 nx.2.2
      (here ++ rest.1, rest.2)

/-- The Bresenham loop on a fault-free bus: it never fails, leaves the
state unchanged, plots exactly the points of `linePtsLoop` (one
`draw_pixel` transaction each, in order), and completes exactly when the
pure walk completes. -/
theorem drawLineLoop_run (dx dy sx sy x1 y1 : Int) (c : Nat) (s : Lcd)
    (hdc : s.world.dcFail = false) (hspi : s.world.spiFail = none) :
    ∀ (fuel : Nat) (x y err : Int),
      drawLineLoop dx dy sx sy x1 y1 c fuel x y err s =
        (.ok (linePtsLoop s.windowWidth s.windowHeight dx dy sx sy x1 y1 fuel x y err).2, s,
          (linePtsLoop s.windowWidth s.windowHeight dx dy sx sy x1 y1 fuel x y err).1.flatMap
            fun p => pixelEvs p.1 p.2 c) := by
  intro fuel
  induction fuel with
  | zero =>
    intro x y err
    simp [drawLineLoop, linePtsLoop, M.pure]
  | succ n ih =>
    intro x y err
    by_cases hbrk : x = x1 ∧ y = y1
    · obtain ⟨hx1, hy1⟩ := hbrk
      subst hx1
      subst hy1
      by_cases hin : 0 ≤ x ∧ x < i16OfU16 s.windowWidth ∧ 0 ≤ y ∧ y < i16OfU16 s.windowHeight
      · have hxw : x.toNat < s.windowWidth := toNat_lt_of_lt_i16OfU16 hin.1 hin.2.1
        have hyw : y.toNat < s.windowHeight := toNat_lt_of_lt_i16OfU16 hin.2.2.1 hin.2.2.2
        simp [drawLineLoop, linePtsLoop, bind_eq, M.bind, M.get, hin,
          drawPixel_run_in _ _ _ _ hdc hspi hxw hyw, M.pure]
      · simp [drawLineLoop, linePtsLoop, bind_eq, M.bind, M.get, hin, M.pure]
    · by_cases hin : 0 ≤ x ∧ x < i16OfU16 s.windowWidth ∧ 0 ≤ y ∧ y < i16OfU16 s.windowHeight
      · have hxw : x.toNat < s.windowWidth := toNat_lt_of_lt_i16OfU16 hin.1 hin.2.1
        have hyw : y.toNat < s.windowHeight := toNat_lt_of_lt_i16OfU16 hin.2.2.1 hin.2.2.2
        simp [drawLineLoop, linePtsLoop, bind_eq, M.bind, M.get, hin, hbrk,
          drawPixel_run_in _ _ _ _ hdc hspi hxw hyw, M.pure, ih]
      · simp [drawLineLoop, linePtsLoop, bind_eq, M.bind, M.get, hin, hbrk, M.pure, ih]

end LinePure

/-- C3: the exact Bresenham error rules of `draw_line` (error initialised
to `(dx>dy ? dx : -dy)/2`, `x` advancing when `err > -dx`, `y` advancing
when `err < dy` — embodied in `lineStep` / `drawLine`) produce the
reference pixel paths: on the fault-free 240x240 display,
`draw_line(0,0,10,0,c)` succeeds and plots exactly the 11 pixels
`(0,0)..(10,0)` in order, one `draw_pixel` transaction each, and
`draw_line(0,0,5,5,c)` plots exactly the 6 diagonal pixels `(k,k)`; both
pixel lists are duplicate-free (each pixel exactly once). -/
theorem C3_bresenham_reference_paths (c : Nat) :
    (drawLine 0 0 10 0 c lcd240 =
      (.ok (), lcd240,
        (((List.range 11).map fun k => ((k : Nat), (0 : Nat)))).flatMap
          fun p => pixelEvs p.1 p.2 c)) ∧
    (drawLine 0 0 5 5 c lcd240 =
      (.ok (), lcd240,
        (((List.range 6).map fun k => ((k : Nat), (k : Nat)))).flatMap
          fun p => pixelEvs p.1 p.2 c)) ∧
    (((List.range 11).map fun k => ((k : Nat), (0 : Nat)))).Nodup ∧
    (((List.range 6).map fun k => ((k : Nat), (k : Nat)))).Nodup := by
  refine ⟨?_, ?_, by decide, by decide⟩
  · rw [show drawLine 0 0 10 0 c =
      M.bind (drawLineLoop 10 0 1 (-1) 10 0 c (lineFuel 10 0) 0 0 5) (fun _ => M.pure ()) from rfl]
    rw [M_bind_ok (drawLineLoop_run 10 0 1 (-1) 10 0 c lcd240 rfl rfl (lineFuel 10 0) 0 0 5)]
    rw [show (linePtsLoop lcd240.windowWidth lcd240.windowHeight 10 0 1 (-1) 10 0
      (lineFuel 10 0) 0 0 5).1 = ((List.range 11).map fun k => ((k : Nat), (0 : Nat))) by decide]
    simp [M.pure]
  · rw [show drawLine 0 0 5 5 c =
      M.bind (drawLineLoop 5 5 1 1 5 5 c (lineFuel 5 5) 0 0 (-2)) (fun _ => M.pure ()) from rfl]
    rw [M_bind_ok (drawLineLoop_run 5 5 1 1 5 5 c lcd240 rfl rfl (lineFuel 5 5) 0 0 (-2))]
    rw [show (linePtsLoop lcd240.windowWidth lcd240.windowHeight 5 5 1 1 5 5
      (lineFuel 5 5) 0 0 (-2)).1 = ((List.range 6).map fun k => ((k : Nat), (k : Nat))) by decide]
    simp [M.pure]

section Rotation

theorem setRotation_run (r : DisplayRotation) (s : Lcd) (hdc : s.world.dcFail = false)
    (hspi : s.world.spiFail = none) :
    setRotation r s =
      (.ok (), { s with rotation := r, windowWidth := 240, windowHeight := 240 },
        [.pinSet .dc false true, .spiWrite [MADCTL] true,
         .pinSet .dc true true, .spiWrite [rotationValue r] true]) := by
  cases r <;>
    simp [setRotation, bind_eq, M.bind, M.modify, writeCommand_run _ _ hdc hspi,
      writeData_run _ _ hdc hspi, rotationDims, DISPLAY_WIDTH, DISPLAY_HEIGHT]

theorem setColorFormat_run (f : ColorFormat) (s : Lcd) (hdc : s.world.dcFail = false)
    (hspi : s.world.spiFail = none) :
    setColorFormat f s =
      (.ok (), { s with colorFormat := f },
        [.pinSet .dc false true, .spiWrite [COLMOD] true,
         .pinSet .dc true true,
         .spiWrite [match f with | .rgb565 => 0x55 | .rgb888 => 0x66] true]) := by
  cases f <;>
    simp [setColorFormat, bind_eq, M.bind, M.modify, writeCommand_run _ _ hdc hspi,
      writeData_run _ _ hdc hspi]

end Rotation

section Chunks

/-- Taking `2*k` bytes of a flattened list of `m` byte pairs yields the
first `k` pairs. -/
theorem take_flatten_pairs (a b : Nat) :
    ∀ (k m : Nat), k ≤ m →
      ((List.replicate m [a, b]).flatten).take (2 * k) = (List.replicate k [a, b]).flatten := by
  intro k
  induction k with
  | zero => intro m _; simp
  | succ j ih =>
    intro m hm
    match m, hm with
    | m' + 1, hm =>
      have hj : j ≤ m' := Nat.lt_succ_iff.mp hm
      simp only [List.replicate_succ, List.flatten_cons]
      rw [show 2 * (j + 1) = (2 * j) + 1 + 1 by ring]
      simp [List.take_succ_cons, ih m' hj]

/-- The trace of the chunk loop `fillChunksF` on a fault-free bus. -/
def chunkTr (buffer : List Nat) : Nat → Nat → List Ev
  | _, 0 => []
  | 0, _ + 1 => []
  | fuel + 1, remaining + 1 =>
    let chunk := Nat.min (remaining + 1) 64
    .spiWrite (buffer.take (chunk * 2)) true :: chunkTr buffer fuel (remaining + 1 - chunk)

theorem fillChunksF_run (buffer : List Nat) :
    ∀ (fuel remaining : Nat) (s : Lcd), s.world.spiFail = none →
      fillChunksF buffer fuel remaining s = (.ok (), s, chunkTr buffer fuel remaining) := by
  intro fuel
  induction fuel with
  | zero =>
    intro remaining s hspi
    cases remaining <;> simp [fillChunksF, chunkTr, M.pure]
  | succ n ih =>
    intro remaining s hspi
    cases remaining with
    | zero => simp [fillChunksF, chunkTr, M.pure]
    | succ r =>
      simp [fillChunksF, chunkTr, bind_eq, M.bind, spiWriteOp, hspi, ih _ s hspi]

theorem chunkTr_spiOnly (buffer : List Nat) :
    ∀ (fuel remaining : Nat), ∀ e ∈ chunkTr buffer fuel remaining,
      ∃ bs ok, e = Ev.spiWrite bs ok := by
  intro fuel
  induction fuel with
  | zero => intro remaining e he; cases remaining <;> simp [chunkTr] at he
  | succ n ih =>
    intro remaining e he
    cases remaining with
    | zero => simp [chunkTr] at he
    | succ r =>
      simp only [chunkTr, List.mem_cons] at he
      rcases he with h | h
      · exact ⟨_, _, h⟩
      · exact ih _ e h

/-- The bytes of the chunked transmission of `n` pixels: exactly `n`
repetitions of the colour's two bytes. -/
theorem chunkTr_bytes (c : Nat) :
    ∀ (fuel remaining : Nat), remaining ≤ fuel →
      allBusBytes (chunkTr (colorBuffer c) fuel remaining) =
        (List.replicate remaining [hiByte c, loByte c]).flatten := by
  intro fuel
  induction fuel with
  | zero =>
    intro remaining h
    interval_cases remaining
    simp [chunkTr, allBusBytes]
  | succ n ih =>
    intro remaining h
    cases remaining with
    | zero => simp [chunkTr, allBusBytes]
    | succ r =>
      have hchunk1 : 1 ≤ Nat.min (r + 1) 64 := by
        simp [Nat.le_min]
      have hchunkle : Nat.min (r + 1) 64 ≤ r + 1 := Nat.min_le_left _ _
      have hrec : r + 1 - Nat.min (r + 1) 64 ≤ n := by omega
      simp only [chunkTr, allBusBytes, List.flatMap_cons]
      rw [show ((chunkTr (colorBuffer c) n (r + 1 - Nat.min (r + 1) 64)).flatMap fun e =>
            match e with | .spiWrite bs _ => bs | _ => []) =
          allBusBytes (chunkTr (colorBuffer c) n (r + 1 - Nat.min (r + 1) 64)) from rfl]
      rw [ih _ hrec]
      rw [show Nat.min (r + 1) 64 * 2 = 2 * Nat.min (r + 1) 64 by ring]
      rw [show colorBuffer c = (List.replicate 64 [hiByte c, loByte c]).flatten from rfl]
      rw [take_flatten_pairs _ _ _ _ (Nat.min_le_right _ _)]
      rw [← List.flatten_append, ← List.replicate_add]
      rw [Nat.add_sub_cancel' hchunkle]

theorem dataPhase_spiOnly :
    ∀ tr : List Ev, (∀ e ∈ tr, ∃ bs ok, e = Ev.spiWrite bs ok) →
      dataPhaseBytes true tr = allBusBytes tr := by
  intro tr
  induction tr with
  | nil => intro _; simp [dataPhaseBytes, allBusBytes]
  | cons e r ih =>
    intro h
    obtain ⟨bs, ok, he⟩ := h e (List.mem_cons_self _ _)
    subst he
    simp only [dataPhaseBytes, allBusBytes, List.flatMap_cons, if_true]
    rw [show (r.flatMap fun e => match e with | Ev.spiWrite bs _ => bs | _ => []) =
      allBusBytes r from rfl]
    rw [ih fun e hm => h e (List.mem_cons_of_mem _ hm)]

end Chunks

/-- C6: the chunk loop of `fill_rect` (64-pixel buffer, final chunk
possibly partial) is byte-for-byte equivalent to emitting the pixels
unchunked: for every pixel count `n` and colour, on a fault-free bus the
loop succeeds and the concatenation of all its data-phase bytes is
exactly `n` repetitions of the colour's two-byte big-endian encoding —
the encoding `write_data_u16` emits, most significant byte first. -/
theorem C6_chunked_stream_equivalence :
    (∀ (n color : Nat) (s : Lcd), s.world.spiFail = none →
      fillChunks (colorBuffer color) n s = (.ok (), s, chunkTr (colorBuffer color) n n) ∧
      dataPhaseBytes true (chunkTr (colorBuffer color) n n) =
        (List.replicate n [hiByte color, loByte color]).flatten) ∧
    (∀ (v : Nat) (s : Lcd), s.world.dcFail = false → s.world.spiFail = none →
      writeDataU16 v s =
        (.ok (), s, [.pinSet .dc true true, .spiWrite [hiByte v, loByte v] true]) ∧
      hiByte v = v / 256 % 256 ∧ loByte v = v % 256) := by
  constructor
  · intro n color s hspi
    refine ⟨fillChunksF_run _ _ _ _ hspi, ?_⟩
    rw [dataPhase_spiOnly _ (chunkTr_spiOnly _ _ _)]
    exact chunkTr_bytes color n n le_rfl
  · intro v s hdc hspi
    exact ⟨writeDataU16_run v s hdc hspi, rfl, rfl⟩

/-- C6, witness: 130 pixels of colour 0xABCD — three chunks (64+64+2). -/
theorem C6_chunked_stream_equivalence_witness :
    lcd240.world.spiFail = none ∧
    (fillChunks (colorBuffer 0xABCD) 130 lcd240 =
        (.ok (), lcd240, chunkTr (colorBuffer 0xABCD) 130 130) ∧
      dataPhaseBytes true (chunkTr (colorBuffer 0xABCD) 130 130) =
        (List.replicate 130 [hiByte 0xABCD, loByte 0xABCD]).flatten) :=
  ⟨rfl, C6_chunked_stream_equivalence.1 130 0xABCD lcd240 rfl⟩

section BigRuns

/-- The event trace of a fault-free `fill_rect`. -/
def fillRectTr (ww wh x y w h c : Nat) : List Ev :=
  if x ≥ ww ∨ y ≥ wh then []
  else
    awEvs x y (clipEnd x w ww) (clipEnd y h wh) ++
      .pinSet .dc true true ::
        chunkTr (colorBuffer c) (numPixels x y (clipEnd x w ww) (clipEnd y h wh))
          (numPixels x y (clipEnd x w ww) (clipEnd y h wh))

theorem fillRect_run (x y w h c : Nat) (s : Lcd) (hdc : s.world.dcFail = false)
    (hspi : s.world.spiFail = none) :
    fillRect x y w h c s = (.ok (), s, fillRectTr s.windowWidth s.windowHeight x y w h c) := by
  by_cases hb : x ≥ s.windowWidth ∨ y ≥ s.windowHeight
  · simp [fillRect, bind_eq, M.bind, M.get, hb, fillRectTr, M.pure]
  · simp [fillRect, bind_eq, M.bind, M.get, hb, fillRectTr,
      setAddressWindow_run _ _ _ _ _ hdc hspi, pinSetOp, World.pinFails, hdc,
      fillChunks, fillChunksF_run _ _ _ _ hspi, M.pure]

theorem drawHline_run (x y w c : Nat) (s : Lcd) (hdc : s.world.dcFail = false)
    (hspi : s.world.spiFail = none) :
    drawHline x y w c s = (.ok (), s, fillRectTr s.windowWidth s.windowHeight x y w 1 c) :=
  fillRect_run x y w 1 c s hdc hspi

theorem initBacklightOn_run (s : Lcd) (hbl : s.world.blFail = false) :
    initBacklightOn s =
      (.ok (), s, if s.hasBl then [.pinSet .bl true true] else []) := by
  cases hB : s.hasBl with
  | true =>
    simp [initBacklightOn, bind_eq, M.bind, M.get, hB, pinSetOp, World.pinFails, hbl, M.pure]
  | false => simp [initBacklightOn, bind_eq, M.bind, M.get, hB, M.pure]

theorem initClear_run (s : Lcd) (hdc : s.world.dcFail = false)
    (hspi : s.world.spiFail = none) :
    initClear s =
      (.ok (), s,
        fillRectTr s.windowWidth s.windowHeight 0 0 s.windowWidth s.windowHeight 0) := by
  simp [initClear, bind_eq, M.bind, M.get, fillRect_run _ _ _ _ _ _ hdc hspi]

/-- A fault-free run of `initialize` (the reset pin may still fault —
`hardware_reset` ignores it): it succeeds, and the resulting cached state
is the constructor state with Portrait rotation, RGB565 colour format and
the native 240x240 extent. -/
theorem initDisplay_run (s : Lcd) (hdc : s.world.dcFail = false)
    (hbl : s.world.blFail = false) (hspi : s.world.spiFail = none) :
    (initDisplay s).1 = .ok () ∧
    (initDisplay s).2.1 =
      { s with
          rotation := .portrait, colorFormat := .rgb565, windowWidth := 240,
          windowHeight := 240 } := by
  constructor <;>
    simp [initDisplay, bind_eq, M.bind, hardwareReset_run, sleepOp,
      writeCommand_run, writeData_run, setColorFormat_run, setRotation_run,
      initBacklightOn_run, initClear_run, hdc, hbl, hspi]

end BigRuns

/-- C4: for every current state and every target `DisplayRotation`,
`set_rotation` (on a fault-free bus) succeeds, writes the MADCTL command
followed by the orientation's configuration data byte on the bus, and
leaves the cached drawable-region extent at (240, 240) — Portrait and
PortraitFlipped assign the native width/height, Landscape and
LandscapeFlipped assign them swapped, and the square panel makes the four
extents equal.  The configuration byte is pairwise distinct across the
four orientations, and the state built by the constructor — before and
after a fault-free `initialize` — has orientation Portrait. -/
theorem C4_rotation_model :
    (∀ (s : Lcd) (r : DisplayRotation), s.world.dcFail = false → s.world.spiFail = none →
      setRotation r s =
        (.ok (), { s with rotation := r, windowWidth := 240, windowHeight := 240 },
          [.pinSet .dc false true, .spiWrite [MADCTL] true,
           .pinSet .dc true true, .spiWrite [rotationValue r] true])) ∧
    (∀ r r' : DisplayRotation, r ≠ r' → rotationValue r ≠ rotationValue r') ∧
    (∀ (w : World) (hb : Bool), (newLcdState w hb).rotation = .portrait) ∧
    (initDisplay lcd240).2.1 = lcd240 := by
  refine ⟨fun s r hdc hspi => setRotation_run r s hdc hspi, ?_, fun w hb => rfl,
    (initDisplay_run lcd240 rfl rfl rfl).2⟩
  intro r r' hne
  cases r <;> cases r' <;> first
    | exact absurd rfl hne
    | decide

/-- C4, witness: `set_rotation` to Landscape on the fault-free display. -/
theorem C4_rotation_model_witness :
    lcd240.world.dcFail = false ∧ lcd240.world.spiFail = none ∧
    setRotation .landscape lcd240 =
      (.ok (), { lcd240 with rotation := .landscape, windowWidth := 240, windowHeight := 240 },
        [.pinSet .dc false true, .spiWrite [MADCTL] true,
         .pinSet .dc true true, .spiWrite [rotationValue .landscape] true]) :=
  ⟨rfl, rfl, C4_rotation_model.1 lcd240 .landscape rfl rfl⟩


section Preservation

variable {α β γ : Type}

/-- `m` leaves the projection `g` of the driver state untouched on every
path, success and error alike. -/
def Keeps (g : Lcd → γ) (m : M α) : Prop := ∀ s : Lcd, g (m s).2.1 = g s

theorem keeps_bind {g : Lcd → γ} {m : M α} {f : α → M β}
    (hm : Keeps g m) (hf : ∀ a, Keeps g (f a)) : Keeps g (M.bind m f) := by
  intro s
  have hs1 := hm s
  rcases hr : m s with ⟨r, s1, tr⟩
  rw [hr] at hs1
  unfold M.bind
  rw [hr]
  cases r with
  | error e => exact hs1
  | ok a =>
    dsimp only
    have hs2 := hf a s1
    rcases hfa : f a s1 with ⟨r2, s2, tr2⟩
    rw [hfa] at hs2
    exact hs2.trans hs1

theorem keeps_pure (g : Lcd → γ) (a : α) : Keeps g (M.pure a) := fun _ => rfl

theorem keeps_throw (g : Lcd → γ) (e : SpiError) : Keeps g (M.throw e : M α) := fun _ => rfl

theorem keeps_get (g : Lcd → γ) : Keeps g M.get := fun _ => rfl

theorem keeps_pinSetOp (g : Lcd → γ) (p : PinId) (hi : Bool) : Keeps g (pinSetOp p hi) :=
  fun _ => rfl

theorem keeps_spiWriteOp (g : Lcd → γ) (bs : List Nat) : Keeps g (spiWriteOp bs) := by
  intro s
  unfold spiWriteOp
  cases s.world.spiFail <;> rfl

theorem keeps_sleepOp (g : Lcd → γ) (ms : Nat) : Keeps g (sleepOp ms) := fun _ => rfl

theorem keeps_ite (g : Lcd → γ) (c : Prop) [Decidable c] {a b : M α}
    (ha : Keeps g a) (hb : Keeps g b) : Keeps g (if c then a else b) := by
  by_cases h : c
  · simpa [h] using ha
  · simpa [h] using hb

theorem keeps_writeCommand (g : Lcd → γ) (c : Nat) : Keeps g (writeCommand c) :=
  keeps_bind (keeps_pinSetOp g _ _) fun ok =>
    keeps_ite g _ (keeps_spiWriteOp g _) (keeps_throw g _)

theorem keeps_writeData (g : Lcd → γ) (bs : List Nat) : Keeps g (writeData bs) :=
  keeps_bind (keeps_pinSetOp g _ _) fun ok =>
    keeps_ite g _ (keeps_spiWriteOp g _) (keeps_throw g _)

theorem keeps_writeDataU16 (g : Lcd → γ) (v : Nat) : Keeps g (writeDataU16 v) :=
  keeps_writeData g _

theorem keeps_setAddressWindow (g : Lcd → γ) (x0 y0 x1 y1 : Nat) :
    Keeps g (setAddressWindow x0 y0 x1 y1) :=
  keeps_bind (keeps_writeCommand g _) fun _ =>
  keeps_bind (keeps_writeDataU16 g _) fun _ =>
  keeps_bind (keeps_writeDataU16 g _) fun _ =>
  keeps_bind (keeps_writeCommand g _) fun _ =>
  keeps_bind (keeps_writeDataU16 g _) fun _ =>
  keeps_bind (keeps_writeDataU16 g _) fun _ => keeps_writeCommand g _

theorem keeps_setBacklight (g : Lcd → γ) (b : Bool) : Keeps g (setBacklight b) :=
  keeps_bind (keeps_get g) fun s =>
    keeps_ite g _
      (keeps_bind (keeps_pinSetOp g _ _) fun ok =>
        keeps_ite g _ (keeps_pure g _) (keeps_throw g _))
      (keeps_pure g _)

theorem keeps_drawPixel (g : Lcd → γ) (x y c : Nat) : Keeps g (drawPixel x y c) :=
  keeps_bind (keeps_get g) fun s =>
    keeps_ite g _ (keeps_pure g _)
      (keeps_bind (keeps_setAddressWindow g _ _ _ _) fun _ => keeps_writeDataU16 g _)

theorem keeps_fillChunksF (g : Lcd → γ) (buffer : List Nat) :
    ∀ fuel remaining, Keeps g (fillChunksF buffer fuel remaining) := by
  intro fuel
  induction fuel with
  | zero =>
    intro remaining
    cases remaining with
    | zero => exact keeps_pure g _
    | succ r => exact keeps_pure g _
  | succ n ih =>
    intro remaining
    cases remaining with
    | zero => exact keeps_pure g _
    | succ r => exact keeps_bind (keeps_spiWriteOp g _) fun _ => ih _

theorem keeps_fillRect (g : Lcd → γ) (x y w h c : Nat) : Keeps g (fillRect x y w h c) :=
  keeps_bind (keeps_get g) fun s =>
    keeps_ite g _ (keeps_pure g _)
      (keeps_bind (keeps_setAddressWindow g _ _ _ _) fun _ =>
        keeps_bind (keeps_pinSetOp g _ _) fun ok =>
          keeps_ite g _ (keeps_fillChunksF g _ _ _) (keeps_throw g _))

theorem keeps_drawHline (g : Lcd → γ) (x y w c : Nat) : Keeps g (drawHline x y w c) :=
  keeps_fillRect g _ _ _ _ _

theorem keeps_drawVline (g : Lcd → γ) (x y h c : Nat) : Keeps g (drawVline x y h c) :=
  keeps_fillRect g _ _ _ _ _

theorem keeps_drawRect (g : Lcd → γ) (x y w h c : Nat) : Keeps g (drawRect x y w h c) :=
  keeps_bind (keeps_drawHline g _ _ _ _) fun _ =>
  keeps_bind (keeps_drawHline g _ _ _ _) fun _ =>
  keeps_bind (keeps_drawVline g _ _ _ _) fun _ => keeps_drawVline g _ _ _ _

theorem keeps_drawLineLoop (g : Lcd → γ) (dx dy sx sy x1 y1 : Int) (c : Nat) :
    ∀ fuel (x y err : Int), Keeps g (drawLineLoop dx dy sx sy x1 y1 c fuel x y err) := by
  intro fuel
  induction fuel with
  | zero => intro x y err; exact keeps_pure g _
  | succ n ih =>
    intro x y err
    refine keeps_bind (keeps_get g) fun s => keeps_ite g _ ?_ ?_
    · exact keeps_bind (keeps_drawPixel g _ _ _) fun _ =>
        keeps_ite g _ (keeps_pure g _) (ih _ _ _)
    · exact keeps_bind (keeps_pure g _) fun _ =>
        keeps_ite g _ (keeps_pure g _) (ih _ _ _)

theorem keeps_drawLine (g : Lcd → γ) (x0 y0 x1 y1 : Int) (c : Nat) :
    Keeps g (drawLine x0 y0 x1 y1 c) :=
  keeps_bind (keeps_drawLineLoop g _ _ _ _ _ _ _ _ _ _ _) fun _ => keeps_pure g _

theorem keeps_mapM_loop (g : Lcd → γ) (f : α → M β)
    (hf : ∀ a, Keeps g (f a)) :
    ∀ (l : List α) (acc : List β), Keeps g (List.mapM.loop f l acc) := by
  intro l
  induction l with
  | nil => intro acc; exact keeps_pure g _
  | cons a t ih =>
    intro acc
    exact keeps_bind (hf a) fun b => ih _

theorem keeps_mapM (g : Lcd → γ) (f : α → M β) (hf : ∀ a, Keeps g (f a)) (l : List α) :
    Keeps g (l.mapM f) :=
  keeps_mapM_loop g f hf l []

theorem keeps_drawCircleLoop (g : Lcd → γ) (xc yc c : Nat) :
    ∀ fuel st, Keeps g (drawCircleLoop xc yc c fuel st) := by
  intro fuel
  induction fuel with
  | zero => intro st; exact keeps_pure g _
  | succ n ih =>
    intro st
    refine keeps_ite g _ ?_ (keeps_pure g _)
    exact keeps_bind (keeps_mapM g _ (fun p => keeps_drawPixel g _ _ _) _) fun _ => ih _

theorem keeps_drawCircle (g : Lcd → γ) (xc yc r c : Nat) : Keeps g (drawCircle xc yc r c) :=
  keeps_drawCircleLoop g _ _ _ _ _

theorem keeps_fillCircleLoop (g : Lcd → γ) (xc yc c : Nat) :
    ∀ fuel st, Keeps g (fillCircleLoop xc yc c fuel st) := by
  intro fuel
  induction fuel with
  | zero => intro st; exact keeps_pure g _
  | succ n ih =>
    intro st
    refine keeps_ite g _ ?_ (keeps_pure g _)
    exact keeps_bind (keeps_mapM g _ (fun sp => keeps_drawHline g _ _ _ _) _) fun _ => ih _

theorem keeps_fillCircle (g : Lcd → γ) (xc yc r c : Nat) : Keeps g (fillCircle xc yc r c) :=
  keeps_fillCircleLoop g _ _ _ _ _

theorem keeps_drawImage (g : Lcd → γ) (x y w h : Nat) (data : List Nat) :
    Keeps g (drawImage x y w h data) :=
  keeps_bind (keeps_get g) fun s =>
    keeps_ite g _ (keeps_pure g _)
      (keeps_bind (keeps_setAddressWindow g _ _ _ _) fun _ =>
        keeps_ite g _ (keeps_throw g _)
          (keeps_bind (keeps_pinSetOp g _ _) fun ok =>
            keeps_ite g _ (keeps_spiWriteOp g _) (keeps_throw g _)))

theorem keeps_modify_of (g : Lcd → γ) (f : Lcd → Lcd) (h : ∀ s, g (f s) = g s) :
    Keeps g (M.modify f) := fun s => h s

end Preservation

/-- C9: every drawing primitive — `draw_pixel`, `fill_rect`, `draw_hline`,
`draw_vline`, `draw_line`, `draw_rect`, `draw_circle`, `fill_circle`,
`draw_image` — leaves the whole cached device state (orientation, colour
format, drawable-region width/height, and every other field) unchanged on
every path, whether it returns success or an error, and under every
collaborator fault pattern; `set_backlight` does too.  `set_rotation`
mutates only its own fields (the colour format is preserved), and
`set_color_format` mutates only the colour format (orientation and the
drawable-region extent are preserved). -/
theorem C9_drawing_preserves_device_state :
    (∀ (x y c : Nat) (s : Lcd), (drawPixel x y c s).2.1 = s) ∧
    (∀ (x y w h c : Nat) (s : Lcd), (fillRect x y w h c s).2.1 = s) ∧
    (∀ (x y w c : Nat) (s : Lcd), (drawHline x y w c s).2.1 = s) ∧
    (∀ (x y h c : Nat) (s : Lcd), (drawVline x y h c s).2.1 = s) ∧
    (∀ (x0 y0 x1 y1 : Int) (c : Nat) (s : Lcd), (drawLine x0 y0 x1 y1 c s).2.1 = s) ∧
    (∀ (x y w h c : Nat) (s : Lcd), (drawRect x y w h c s).2.1 = s) ∧
    (∀ (xc yc r c : Nat) (s : Lcd), (drawCircle xc yc r c s).2.1 = s) ∧
    (∀ (xc yc r c : Nat) (s : Lcd), (fillCircle xc yc r c s).2.1 = s) ∧
    (∀ (x y w h : Nat) (data : List Nat) (s : Lcd), (drawImage x y w h data s).2.1 = s) ∧
    (∀ (b : Bool) (s : Lcd), (setBacklight b s).2.1 = s) ∧
    (∀ (r : DisplayRotation) (s : Lcd),
      (setRotation r s).2.1.colorFormat = s.colorFormat) ∧
    (∀ (f : ColorFormat) (s : Lcd),
      (setColorFormat f s).2.1.rotation = s.rotation ∧
      (setColorFormat f s).2.1.windowWidth = s.windowWidth ∧
      (setColorFormat f s).2.1.windowHeight = s.windowHeight) := by
  refine ⟨fun x y c s => keeps_drawPixel id x y c s,
    fun x y w h c s => keeps_fillRect id x y w h c s,
    fun x y w c s => keeps_drawHline id x y w c s,
    fun x y h c s => keeps_drawVline id x y h c s,
    fun x0 y0 x1 y1 c s => keeps_drawLine id x0 y0 x1 y1 c s,
    fun x y w h c s => keeps_drawRect id x y w h c s,
    fun xc yc r c s => keeps_drawCircle id xc yc r c s,
    fun xc yc r c s => keeps_fillCircle id xc yc r c s,
    fun x y w h data s => keeps_drawImage id x y w h data s,
    fun b s => keeps_setBacklight id b s,
    fun r s => ?_, fun f s => ?_⟩
  · cases hdc : s.world.dcFail with
    | true =>
      simp [setRotation, bind_eq, M.bind, writeCommand, pinSetOp, World.pinFails, hdc, M.throw]
    | false =>
      cases hspi : s.world.spiFail with
      | none => rw [setRotation_run r s hdc hspi]
      | some e =>
        simp [setRotation, bind_eq, M.bind, writeCommand, pinSetOp, spiWriteOp,
          World.pinFails, hdc, hspi, M.throw]
  · refine ⟨?_, ?_, ?_⟩ <;>
    · cases hdc : s.world.dcFail with
      | true =>
        simp [setColorFormat, bind_eq, M.bind, writeCommand, pinSetOp, World.pinFails, hdc,
          M.throw]
      | false =>
        cases hspi : s.world.spiFail with
        | none => rw [setColorFormat_run f s hdc hspi]
        | some e =>
          simp [setColorFormat, bind_eq, M.bind, writeCommand, pinSetOp, spiWriteOp,
            World.pinFails, hdc, hspi, M.throw]

section FaultPropagation

variable {α β : Type}

/-- On any run of `m` that returns success, every collaborator fault
recorded in the trace came from a reset-pin operation (those are the ones
`hardware_reset` discards with `unwrap_or(())`): no other collaborator
fault can end in a success return. -/
def FaultsOnlyRst (m : M α) : Prop :=
  ∀ (s : Lcd) (a : α) (s' : Lcd) (tr : List Ev), m s = (.ok a, s', tr) →
    ∀ e ∈ tr, e.isFault = true → e.isRstPin = true

theorem onlyRst_bind {m : M α} {f : α → M β}
    (hm : FaultsOnlyRst m) (hf : ∀ a, FaultsOnlyRst (f a)) : FaultsOnlyRst (M.bind m f) := by
  intro s a s' tr h e he hfault
  rcases hr : m s with ⟨r, s1, tr1⟩
  unfold M.bind at h
  rw [hr] at h
  cases r with
  | error e2 => simp at h
  | ok b =>
    dsimp only at h
    rcases hfa : f b s1 with ⟨r2, s2, tr2⟩
    rw [hfa] at h
    dsimp only at h
    have h1 : r2 = .ok a := congrArg Prod.fst h
    have h3 : tr1 ++ tr2 = tr := congrArg (fun q => q.2.2) h
    rw [← h3] at he
    rcases List.mem_append.mp he with hm1 | hm2
    · exact hm s b s1 tr1 hr e hm1 hfault
    · exact hf b s1 a s2 tr2 (by rw [hfa, h1]) e hm2 hfault

theorem onlyRst_pure (a : α) : FaultsOnlyRst (M.pure a) := by
  intro s a' s' tr h e he hfault
  unfold M.pure at h
  have : tr = [] := (congrArg (fun q => q.2.2) h).symm
  subst this
  simp at he

theorem onlyRst_throw (err : SpiError) : FaultsOnlyRst (M.throw err : M α) := by
  intro s a s' tr h
  unfold M.throw at h
  simp at h

theorem onlyRst_get : FaultsOnlyRst M.get := by
  intro s a s' tr h e he hfault
  unfold M.get at h
  have : tr = [] := (congrArg (fun q => q.2.2) h).symm
  subst this
  simp at he

theorem onlyRst_modify (f : Lcd → Lcd) : FaultsOnlyRst (M.modify f) := by
  intro s a s' tr h e he hfault
  unfold M.modify at h
  have : tr = [] := (congrArg (fun q => q.2.2) h).symm
  subst this
  simp at he

theorem onlyRst_sleepOp (ms : Nat) : FaultsOnlyRst (sleepOp ms) := by
  intro s a s' tr h e he hfault
  unfold sleepOp at h
  have : tr = [.sleepMs ms] := (congrArg (fun q => q.2.2) h).symm
  subst this
  rcases List.mem_singleton.mp he with rfl
  simp [Ev.isFault] at hfault

theorem onlyRst_spiWriteOp (bs : List Nat) : FaultsOnlyRst (spiWriteOp bs) := by
  intro s a s' tr h e he hfault
  unfold spiWriteOp at h
  cases hspi : s.world.spiFail with
  | some err => rw [hspi] at h; simp at h
  | none =>
    rw [hspi] at h
    have : tr = [.spiWrite bs true] := (congrArg (fun q => q.2.2) h).symm
    subst this
    rcases List.mem_singleton.mp he with rfl
    simp [Ev.isFault] at hfault

/-- The recurring pattern `pin.set_xxx().map_err(...)?`: a pin level set
whose failure is turned into an error return. -/
theorem onlyRst_pinGate (p : PinId) (hi : Bool) (k : M α) (err : SpiError)
    (hk : FaultsOnlyRst k) :
    FaultsOnlyRst (M.bind (pinSetOp p hi) fun ok => if ok then k else M.throw err) := by
  intro s a s' tr h e he hfault
  cases hp : s.world.pinFails p with
  | true =>
    unfold M.bind pinSetOp at h
    rw [hp] at h
    simp [M.throw] at h
  | false =>
    have hrun : M.bind (pinSetOp p hi) (fun ok => if ok then k else M.throw err) s =
        ((k s).1, (k s).2.1, Ev.pinSet p hi true :: (k s).2.2) := by
      unfold M.bind pinSetOp
      rw [hp]
      simp
    rw [hrun] at h
    rcases hk2 : k s with ⟨r2, s2, tr2⟩
    rw [hk2] at h
    dsimp only at h
    have h1 : r2 = .ok a := congrArg Prod.fst h
    have h3 : Ev.pinSet p hi true :: tr2 = tr := congrArg (fun q => q.2.2) h
    rw [← h3] at he
    rcases List.mem_cons.mp he with rfl | hm2
    · simp [Ev.isFault] at hfault
    · exact hk s a s2 tr2 (by rw [hk2, h1]) e hm2 hfault

theorem onlyRst_ite (c : Prop) [Decidable c] {a b : M α}
    (ha : FaultsOnlyRst a) (hb : FaultsOnlyRst b) : FaultsOnlyRst (if c then a else b) := by
  by_cases h : c
  · simpa [h] using ha
  · simpa [h] using hb

theorem onlyRst_hardwareReset : FaultsOnlyRst hardwareReset := by
  intro s a s' tr h e he hfault
  rw [hardwareReset_run s] at h
  have htr : tr = [.pinSet .rst true (!s.world.rstFail), .sleepMs 10,
       .pinSet .rst false (!s.world.rstFail), .sleepMs 10,
       .pinSet .rst true (!s.world.rstFail), .sleepMs 120] :=
    (congrArg (fun q => q.2.2) h).symm
  subst htr
  fin_cases he <;> simp_all [Ev.isFault, Ev.isRstPin]

theorem onlyRst_writeCommand (c : Nat) : FaultsOnlyRst (writeCommand c) :=
  onlyRst_pinGate _ _ _ _ (onlyRst_spiWriteOp _)

theorem onlyRst_writeData (bs : List Nat) : FaultsOnlyRst (writeData bs) :=
  onlyRst_pinGate _ _ _ _ (onlyRst_spiWriteOp _)

theorem onlyRst_writeDataU16 (v : Nat) : FaultsOnlyRst (writeDataU16 v) :=
  onlyRst_writeData _

theorem onlyRst_setAddressWindow (x0 y0 x1 y1 : Nat) :
    FaultsOnlyRst (setAddressWindow x0 y0 x1 y1) :=
  onlyRst_bind (onlyRst_writeCommand _) fun _ =>
  onlyRst_bind (onlyRst_writeDataU16 _) fun _ =>
  onlyRst_bind (onlyRst_writeDataU16 _) fun _ =>
  onlyRst_bind (onlyRst_writeCommand _) fun _ =>
  onlyRst_bind (onlyRst_writeDataU16 _) fun _ =>
  onlyRst_bind (onlyRst_writeDataU16 _) fun _ => onlyRst_writeCommand _

theorem onlyRst_setRotation (r : DisplayRotation) : FaultsOnlyRst (setRotation r) := by
  show FaultsOnlyRst (M.bind (writeCommand MADCTL) fun _ =>
    M.bind (writeData [rotationValue r]) fun _ =>
      M.bind (M.modify fun s =>
          { s with windowWidth := (rotationDims r).1, windowHeight := (rotationDims r).2 })
        fun _ => M.modify fun s => { s with rotation := r })
  exact onlyRst_bind (onlyRst_writeCommand _) fun _ =>
    onlyRst_bind (onlyRst_writeData _) fun _ =>
      onlyRst_bind (onlyRst_modify _) fun _ => onlyRst_modify _

theorem onlyRst_setColorFormat (f : ColorFormat) : FaultsOnlyRst (setColorFormat f) :=
  onlyRst_bind (onlyRst_writeCommand _) fun _ =>
    onlyRst_bind (onlyRst_writeData _) fun _ => onlyRst_modify _

theorem onlyRst_setBacklight (b : Bool) : FaultsOnlyRst (setBacklight b) :=
  onlyRst_bind onlyRst_get fun s =>
    onlyRst_ite _ (onlyRst_pinGate _ _ _ _ (onlyRst_pure _)) (onlyRst_pure _)

theorem onlyRst_drawPixel (x y c : Nat) : FaultsOnlyRst (drawPixel x y c) :=
  onlyRst_bind onlyRst_get fun s =>
    onlyRst_ite _ (onlyRst_pure _)
      (onlyRst_bind (onlyRst_setAddressWindow _ _ _ _) fun _ => onlyRst_writeDataU16 _)

theorem onlyRst_fillChunksF (buffer : List Nat) :
    ∀ fuel remaining, FaultsOnlyRst (fillChunksF buffer fuel remaining) := by
  intro fuel
  induction fuel with
  | zero =>
    intro remaining
    cases remaining with
    | zero => exact onlyRst_pure _
    | succ r => exact onlyRst_pure _
  | succ n ih =>
    intro remaining
    cases remaining with
    | zero => exact onlyRst_pure _
    | succ r => exact onlyRst_bind (onlyRst_spiWriteOp _) fun _ => ih _

theorem onlyRst_fillRect (x y w h c : Nat) : FaultsOnlyRst (fillRect x y w h c) :=
  onlyRst_bind onlyRst_get fun s =>
    onlyRst_ite _ (onlyRst_pure _)
      (onlyRst_bind (onlyRst_setAddressWindow _ _ _ _) fun _ =>
        onlyRst_pinGate _ _ _ _ (onlyRst_fillChunksF _ _ _))

theorem onlyRst_drawHline (x y w c : Nat) : FaultsOnlyRst (drawHline x y w c) :=
  onlyRst_fillRect _ _ _ _ _

theorem onlyRst_drawVline (x y h c : Nat) : FaultsOnlyRst (drawVline x y h c) :=
  onlyRst_fillRect _ _ _ _ _

theorem onlyRst_drawRect (x y w h c : Nat) : FaultsOnlyRst (drawRect x y w h c) :=
  onlyRst_bind (onlyRst_drawHline _ _ _ _) fun _ =>
  onlyRst_bind (onlyRst_drawHline _ _ _ _) fun _ =>
  onlyRst_bind (onlyRst_drawVline _ _ _ _) fun _ => onlyRst_drawVline _ _ _ _

theorem onlyRst_drawLineLoop (dx dy sx sy x1 y1 : Int) (c : Nat) :
    ∀ fuel (x y err : Int), FaultsOnlyRst (drawLineLoop dx dy sx sy x1 y1 c fuel x y err) := by
  intro fuel
  induction fuel with
  | zero => intro x y err; exact onlyRst_pure _
  | succ n ih =>
    intro x y err
    refine onlyRst_bind onlyRst_get fun s => onlyRst_ite _ ?_ ?_
    · exact onlyRst_bind (onlyRst_drawPixel _ _ _) fun _ =>
        onlyRst_ite _ (onlyRst_pure _) (ih _ _ _)
    · exact onlyRst_bind (onlyRst_pure _) fun _ =>
        onlyRst_ite _ (onlyRst_pure _) (ih _ _ _)

theorem onlyRst_drawLine (x0 y0 x1 y1 : Int) (c : Nat) :
    FaultsOnlyRst (drawLine x0 y0 x1 y1 c) :=
  onlyRst_bind (onlyRst_drawLineLoop _ _ _ _ _ _ _ _ _ _ _) fun _ => onlyRst_pure _

theorem onlyRst_mapM_loop (f : α → M β) (hf : ∀ a, FaultsOnlyRst (f a)) :
    ∀ (l : List α) (acc : List β), FaultsOnlyRst (List.mapM.loop f l acc) := by
  intro l
  induction l with
  | nil => intro acc; exact onlyRst_pure _
  | cons a t ih => intro acc; exact onlyRst_bind (hf a) fun b => ih _

theorem onlyRst_mapM (f : α → M β) (hf : ∀ a, FaultsOnlyRst (f a)) (l : List α) :
    FaultsOnlyRst (l.mapM f) :=
  onlyRst_mapM_loop f hf l []

theorem onlyRst_drawCircle (xc yc r c : Nat) : FaultsOnlyRst (drawCircle xc yc r c) := by
  unfold drawCircle
  generalize circleInit r = st
  generalize circleFuel = fuel
  induction fuel generalizing st with
  | zero => exact onlyRst_pure _
  | succ n ih =>
    refine onlyRst_ite _ ?_ (onlyRst_pure _)
    exact onlyRst_bind (onlyRst_mapM _ (fun p => onlyRst_drawPixel _ _ _) _) fun _ => ih _

theorem onlyRst_fillCircle (xc yc r c : Nat) : FaultsOnlyRst (fillCircle xc yc r c) := by
  unfold fillCircle
  generalize circleInit r = st
  generalize circleFuel = fuel
  induction fuel generalizing st with
  | zero => exact onlyRst_pure _
  | succ n ih =>
    refine onlyRst_ite _ ?_ (onlyRst_pure _)
    exact onlyRst_bind (onlyRst_mapM _ (fun sp => onlyRst_drawHline _ _ _ _) _) fun _ => ih _

theorem onlyRst_drawImage (x y w h : Nat) (data : List Nat) :
    FaultsOnlyRst (drawImage x y w h data) :=
  onlyRst_bind onlyRst_get fun s =>
    onlyRst_ite _ (onlyRst_pure _)
      (onlyRst_bind (onlyRst_setAddressWindow _ _ _ _) fun _ =>
        onlyRst_ite _ (onlyRst_throw _)
          (onlyRst_pinGate _ _ _ _ (onlyRst_spiWriteOp _)))

theorem onlyRst_initBacklightOn : FaultsOnlyRst initBacklightOn := by
  show FaultsOnlyRst (M.bind M.get fun s =>
    if s.hasBl then
      M.bind (pinSetOp .bl true) fun ok =>
        if ok then M.pure () else M.throw (.driverError (-1))
    else M.pure ())
  exact onlyRst_bind onlyRst_get fun s =>
    onlyRst_ite _ (onlyRst_pinGate _ _ _ _ (onlyRst_pure _)) (onlyRst_pure _)

theorem onlyRst_initClear : FaultsOnlyRst initClear := by
  show FaultsOnlyRst (M.bind M.get fun s => fillRect 0 0 s.windowWidth s.windowHeight 0x0000)
  exact onlyRst_bind onlyRst_get fun s => onlyRst_fillRect _ _ _ _ _

theorem onlyRst_initDisplay : FaultsOnlyRst initDisplay := by
  show FaultsOnlyRst (M.bind hardwareReset fun _ =>
    M.bind (writeCommand SLPOUT) fun _ =>
    M.bind (sleepOp 120) fun _ =>
    M.bind (setColorFormat .rgb565) fun _ =>
    M.bind (setRotation .portrait) fun _ =>
    M.bind (writeCommand INVON) fun _ =>
    M.bind (writeCommand GMCTRP1) fun _ =>
    M.bind (writeData gammaP) fun _ =>
    M.bind (writeCommand GMCTRN1) fun _ =>
    M.bind (writeData gammaN) fun _ =>
    M.bind (sleepOp 10) fun _ =>
    M.bind (writeCommand DISPON) fun _ =>
    M.bind (sleepOp 120) fun _ =>
    M.bind initBacklightOn fun _ => initClear)
  exact onlyRst_bind onlyRst_hardwareReset fun _ =>
    onlyRst_bind (onlyRst_writeCommand _) fun _ =>
    onlyRst_bind (onlyRst_sleepOp _) fun _ =>
    onlyRst_bind (onlyRst_setColorFormat _) fun _ =>
    onlyRst_bind (onlyRst_setRotation _) fun _ =>
    onlyRst_bind (onlyRst_writeCommand _) fun _ =>
    onlyRst_bind (onlyRst_writeCommand _) fun _ =>
    onlyRst_bind (onlyRst_writeData _) fun _ =>
    onlyRst_bind (onlyRst_writeCommand _) fun _ =>
    onlyRst_bind (onlyRst_writeData _) fun _ =>
    onlyRst_bind (onlyRst_sleepOp _) fun _ =>
    onlyRst_bind (onlyRst_writeCommand _) fun _ =>
    onlyRst_bind (onlyRst_sleepOp _) fun _ =>
    onlyRst_bind onlyRst_initBacklightOn fun _ => onlyRst_initClear

end FaultPropagation

/-- C5, counterexample.  With a collaborator world whose reset pin always
faults (and nothing else), `initialize` on a freshly constructed 240x240
driver returns success even though a pin fault was reported inside its
hardware reset: `hardware_reset` discards the fault with `unwrap_or(())`,
so a Pin Control fault inside a driver call is not surfaced as that
call's error result. -/
theorem C5_counterexample :
    (initDisplay (newLcdState ⟨false, true, false, none⟩ false)).1 = .ok () ∧
    ∃ e ∈ (initDisplay (newLcdState ⟨false, true, false, none⟩ false)).2.2,
      e.isFault = true := by
  constructor
  · exact (initDisplay_run (newLcdState ⟨false, true, false, none⟩ false) rfl rfl rfl).1
  · refine ⟨.pinSet .rst true false, ?_, rfl⟩
    rw [show initDisplay = M.bind hardwareReset fun _ => (do
      writeCommand SLPOUT
      sleepOp 120
      setColorFormat .rgb565
      setRotation .portrait
      writeCommand INVON
      writeCommand GMCTRP1
      writeData gammaP
      writeCommand GMCTRN1
      writeData gammaN
      sleepOp 10
      writeCommand DISPON
      sleepOp 120
      initBacklightOn
      initClear) from rfl]
    refine M_bind_trace_mem (hardwareReset_run _) _ ?_
    simp [newLcdState]

/-- C5, amended: every fault reported by a Pin Control or Bus Transport
operation inside any driver call is surfaced immediately as that call's
error result, with one exception: the reset-pin operations inside
`hardware_reset` (run by `initialize`), whose faults are discarded.
Formally: whenever a public driver operation returns success, every fault
event in its collaborator trace is a reset-pin event. -/
theorem C5_faults_surfaced_except_reset :
    FaultsOnlyRst initDisplay ∧
    (∀ r : DisplayRotation, FaultsOnlyRst (setRotation r)) ∧
    (∀ f : ColorFormat, FaultsOnlyRst (setColorFormat f)) ∧
    (∀ b : Bool, FaultsOnlyRst (setBacklight b)) ∧
    (∀ x y c : Nat, FaultsOnlyRst (drawPixel x y c)) ∧
    (∀ x y w h c : Nat, FaultsOnlyRst (fillRect x y w h c)) ∧
    (∀ x y w c : Nat, FaultsOnlyRst (drawHline x y w c)) ∧
    (∀ x y h c : Nat, FaultsOnlyRst (drawVline x y h c)) ∧
    (∀ (x0 y0 x1 y1 : Int) (c : Nat), FaultsOnlyRst (drawLine x0 y0 x1 y1 c)) ∧
    (∀ x y w h c : Nat, FaultsOnlyRst (drawRect x y w h c)) ∧
    (∀ xc yc r c : Nat, FaultsOnlyRst (drawCircle xc yc r c)) ∧
    (∀ xc yc r c : Nat, FaultsOnlyRst (fillCircle xc yc r c)) ∧
    (∀ (x y w h : Nat) (data : List Nat), FaultsOnlyRst (drawImage x y w h data)) :=
  ⟨onlyRst_initDisplay, onlyRst_setRotation, onlyRst_setColorFormat, onlyRst_setBacklight,
   onlyRst_drawPixel, onlyRst_fillRect, onlyRst_drawHline, onlyRst_drawVline,
   fun x0 y0 x1 y1 c => onlyRst_drawLine x0 y0 x1 y1 c, onlyRst_drawRect,
   onlyRst_drawCircle, onlyRst_fillCircle, onlyRst_drawImage⟩

/-- C5, witness: the `draw_pixel` conjunct applied to a concrete
successful run — its trace indeed holds no non-reset fault. -/
theorem C5_faults_surfaced_except_reset_witness :
    drawPixel 3 4 7 lcd240 = (.ok (), lcd240, pixelEvs 3 4 7) ∧
    (∀ e ∈ pixelEvs 3 4 7, e.isFault = true → e.isRstPin = true) :=
  ⟨by decide,
   C5_faults_surfaced_except_reset.2.2.2.2.1 3 4 7 lcd240 () lcd240 (pixelEvs 3 4 7)
     (by decide)⟩

section CircleInvariant

theorem wrapI16_id {z : Int} (h1 : -32768 ≤ z) (h2 : z ≤ 32767) : wrapI16 z = z := by
  unfold wrapI16
  omega

theorem u16OfI16_toNat {z : Int} (h1 : 0 ≤ z) (h2 : z < 65536) : u16OfI16 z = z.toNat := by
  unfold u16OfI16
  omega

theorem u16sub_exact {a b : Nat} (h1 : b ≤ a) (h2 : a < 65536) : u16sub a b = a - b := by
  unfold u16sub
  omega

theorem u16_id {n : Nat} (h : n < 65536) : u16 n = n := by
  unfold u16
  omega

/-- Invariant of the midpoint-circle loop state for a nonzero radius
`r ≤ 32767`: `x` never exceeds `r`, and `y` is either in the healthy
band `[1, x+2]`, still at its initial 0 with `x = r`, or has wrapped to
-32768 (in which case the guard has failed for good). -/
def CInv (r : Nat) (s : CState) : Prop :=
  s.x ≤ r ∧
    (s.y = -32768 ∨ (1 ≤ s.y ∧ s.y ≤ s.x + 2) ∨ (s.y = 0 ∧ s.x = r))

theorem circleReach_inv (r : Nat) (h1 : 1 ≤ r) (hr : r ≤ 32767) :
    ∀ s, CircleReach r s → CInv r s := by
  intro s hreach
  induction hreach with
  | init =>
    constructor
    · simp [circleInit, u16_id (by omega : r < 65536)]
    · right
      right
      exact ⟨rfl, by simp [circleInit, u16_id (by omega : r < 65536)]⟩
  | @step t hre hguard ih =>
    obtain ⟨hx, hy⟩ := ih
    -- the guard rules out the wrapped case and gives 0 ≤ y ≤ x
    have hy0 : 0 ≤ t.y ∧ t.y ≤ (t.x : Int) := by
      rcases hy with hw | hband | hinit
      · exfalso
        unfold circleGuard at hguard
        rw [hw] at hguard
        have : u16OfI16 (-32768) = 32768 := by decide
        omega
      · constructor
        · omega
        · unfold circleGuard at hguard
          rw [u16OfI16_toNat (by omega) (by omega)] at hguard
          omega
      · constructor
        · omega
        · omega
    have hybound : t.y ≤ 32767 := by omega
    unfold circleStep CInv
    dsimp only
    by_cases hw : t.y + 1 ≤ 32767
    · have hy1 : wrapI16 (t.y + 1) = t.y + 1 := wrapI16_id (by omega) hw
      have hx1 : 1 ≤ t.x := by
        -- if x were 0 the guard forces y = 0, hence x = r ≥ 1
        by_contra hc
        have hx0 : t.x = 0 := by omega
        have : t.y = 0 := by omega
        rcases hy with hw2 | hband | hinit
        · omega
        · omega
        · omega
      rw [hy1]
      by_cases he : (if t.err ≤ 0 then wrapI16 (t.err + 2 * (t.y + 1) + 1) else t.err) > 0
      · rw [if_pos he]
        have hxs : u16sub t.x 1 = t.x - 1 := u16sub_exact (by omega) (by omega)
        rw [hxs]
        constructor
        · omega
        · right
          left
          omega
      · rw [if_neg he]
        constructor
        · exact hx
        · right
          left
          omega
    · -- y + 1 wraps to -32768: the state is dead from here on
      have hy1 : wrapI16 (t.y + 1) = -32768 := by
        have : t.y = 32767 := by omega
        rw [this]
        decide
      rw [hy1]
      by_cases he : (if t.err ≤ 0 then wrapI16 (t.err + 2 * -32768 + 1) else t.err) > 0
      · rw [if_pos he]
        have hx1 : 1 ≤ t.x := by
          by_contra hc
          have : t.x = 0 := by omega
          omega
        have hxs : u16sub t.x 1 = t.x - 1 := u16sub_exact (by omega) (by omega)
        rw [hxs]
        exact ⟨by omega, Or.inl rfl⟩
      · rw [if_neg he]
        exact ⟨hx, Or.inl rfl⟩

/-- Guarded reachable states have `0 ≤ y ≤ x ≤ r` with the stored i16 `y`
read back exactly by the `y as u16` cast. -/
theorem circleReach_guard_bounds (r : Nat) (h1 : 1 ≤ r) (hr : r ≤ 32767)
    {s : CState} (hreach : CircleReach r s) (hguard : circleGuard s) :
    u16OfI16 s.y ≤ s.x ∧ s.x ≤ r ∧ (u16OfI16 s.y : Int) = s.y := by
  obtain ⟨hx, hy⟩ := circleReach_inv r h1 hr s hreach
  have hnw : s.y ≠ -32768 := by
    intro hw
    unfold circleGuard at hguard
    rw [hw] at hguard
    have : u16OfI16 (-32768) = 32768 := by decide
    omega
  have hy0 : 0 ≤ s.y ∧ s.y < 65536 := by
    rcases hy with hw | hband | hinit
    · exact absurd hw hnw
    · constructor
      · omega
      · omega
    · constructor
      · omega
      · omega
  have hcast : (u16OfI16 s.y : Int) = s.y := by
    rw [u16OfI16_toNat hy0.1 hy0.2]
    omega
  exact ⟨hguard, hx, hcast⟩

end CircleInvariant

/-- C10, counterexample.  Radius 0 satisfies the claim's precondition
(`x_center ≥ radius`, `x_center + radius ≤ 65535`, likewise for y), yet
in the second loop iteration `x -= 1` has wrapped `x` to 65535, the loop
guard still holds, and the plotted coordinate `x_center + x` wraps modulo
2^16 (here 100 + 65535 computes 99). -/
theorem C10_counterexample :
    (0 ≤ 100 ∧ 100 + 0 ≤ 65535) ∧
    CircleReach 0 (circleStep (circleInit 0)) ∧
    circleGuard (circleStep (circleInit 0)) ∧
    (circleStep (circleInit 0)).x = 65535 ∧
    u16 (100 + (circleStep (circleInit 0)).x) ≠ 100 + (circleStep (circleInit 0)).x :=
  ⟨by decide, CircleReach.step CircleReach.init (by decide), by decide, by decide, by decide⟩

/-- C10, amended (the claim additionally needs `radius ≥ 1`; at radius 0
the `x -= 1` of the first iteration wraps, see the counterexample): for
`1 ≤ radius ≤ x_center, y_center` and `x_center + radius ≤ 65535`,
`y_center + radius ≤ 65535`, every state the circle loops can plot from
(reachable with the guard `x ≥ y as u16` holding) has `0 ≤ y ≤ x ≤ radius`,
and all of the u16 coordinate arithmetic of `draw_circle`'s eight plots
and `fill_circle`'s four spans — `x_center ± x`, `y_center ± x`,
`x_center ± y`, `y_center ± y`, `2*x + 1`, `2*y + 1` — is exact: no
expression wraps modulo 2^16, so off-canvas handling is left entirely to
`draw_pixel`/`fill_rect` clipping.  Without the precondition the
subtraction wraps instead of denoting the intended off-canvas point:
with `x_center = 1` and radius 2, the very first iteration computes
`x_center - x` as 65535, not the intended -1. -/
theorem C10_circle_arithmetic_exact :
    (∀ (cx cy r : Nat), 1 ≤ r → r ≤ cx → r ≤ cy → cx + r ≤ 65535 → cy + r ≤ 65535 →
      ∀ s, CircleReach r s → circleGuard s →
        u16OfI16 s.y ≤ s.x ∧ s.x ≤ r ∧ ((u16OfI16 s.y : Int) = s.y) ∧
        u16 (cx + s.x) = cx + s.x ∧ u16 (cy + s.x) = cy + s.x ∧
        u16sub cx s.x = cx - s.x ∧ u16sub cy s.x = cy - s.x ∧
        ((u16sub cx s.x : Int) = (cx : Int) - (s.x : Int)) ∧
        ((u16sub cy s.x : Int) = (cy : Int) - (s.x : Int)) ∧
        u16 (2 * s.x + 1) = 2 * s.x + 1 ∧
        u16 (cx + u16OfI16 s.y) = cx + u16OfI16 s.y ∧
        u16 (cy + u16OfI16 s.y) = cy + u16OfI16 s.y ∧
        u16sub cx (u16OfI16 s.y) = cx - u16OfI16 s.y ∧
        u16sub cy (u16OfI16 s.y) = cy - u16OfI16 s.y ∧
        ((u16sub cx (u16OfI16 s.y) : Int) = (cx : Int) - (u16OfI16 s.y : Int)) ∧
        ((u16sub cy (u16OfI16 s.y) : Int) = (cy : Int) - (u16OfI16 s.y : Int)) ∧
        u16 (2 * u16OfI16 s.y + 1) = 2 * u16OfI16 s.y + 1) ∧
    (circleGuard (circleInit 2) ∧ u16sub 1 (circleInit 2).x = 65535 ∧
      (1 : Int) - ((circleInit 2).x : Int) = -1) := by
  constructor
  · intro cx cy r hr1 hcx hcy hcx2 hcy2 s hreach hguard
    obtain ⟨hyx, hxr, hcast⟩ :=
      circleReach_guard_bounds r hr1 (by omega) hreach hguard
    have hy2 : u16OfI16 s.y ≤ r := le_trans hyx hxr
    refine ⟨hyx, hxr, hcast, ?_, ?_, ?_, ?_, ?_, ?_, ?_, ?_, ?_, ?_, ?_, ?_, ?_, ?_⟩ <;>
      first
        | exact u16_id (by omega)
        | exact u16sub_exact (by omega) (by omega)
        | (unfold u16sub; omega)
  · exact ⟨by decide, by decide, by decide⟩

/-- C10, witness: the amended theorem at centre (100, 100), radius 2, at
the initial loop state. -/
theorem C10_circle_arithmetic_exact_witness :
    CircleReach 2 (circleInit 2) ∧ circleGuard (circleInit 2) ∧
    (u16OfI16 (circleInit 2).y ≤ (circleInit 2).x ∧ (circleInit 2).x ≤ 2 ∧
      ((u16OfI16 (circleInit 2).y : Int) = (circleInit 2).y) ∧
      u16 (100 + (circleInit 2).x) = 100 + (circleInit 2).x ∧
      u16 (100 + (circleInit 2).x) = 100 + (circleInit 2).x ∧
      u16sub 100 (circleInit 2).x = 100 - (circleInit 2).x ∧
      u16sub 100 (circleInit 2).x = 100 - (circleInit 2).x ∧
      ((u16sub 100 (circleInit 2).x : Int) = (100 : Int) - ((circleInit 2).x : Int)) ∧
      ((u16sub 100 (circleInit 2).x : Int) = (100 : Int) - ((circleInit 2).x : Int)) ∧
      u16 (2 * (circleInit 2).x + 1) = 2 * (circleInit 2).x + 1 ∧
      u16 (100 + u16OfI16 (circleInit 2).y) = 100 + u16OfI16 (circleInit 2).y ∧
      u16 (100 + u16OfI16 (circleInit 2).y) = 100 + u16OfI16 (circleInit 2).y ∧
      u16sub 100 (u16OfI16 (circleInit 2).y) = 100 - u16OfI16 (circleInit 2).y ∧
      u16sub 100 (u16OfI16 (circleInit 2).y) = 100 - u16OfI16 (circleInit 2).y ∧
      ((u16sub 100 (u16OfI16 (circleInit 2).y) : Int) =
        (100 : Int) - (u16OfI16 (circleInit 2).y : Int)) ∧
      ((u16sub 100 (u16OfI16 (circleInit 2).y) : Int) =
        (100 : Int) - (u16OfI16 (circleInit 2).y : Int)) ∧
      u16 (2 * u16OfI16 (circleInit 2).y + 1) = 2 * u16OfI16 (circleInit 2).y + 1) :=
  ⟨CircleReach.init, by decide,
   C10_circle_arithmetic_exact.1 100 100 2 (by decide) (by decide) (by decide) (by decide)
     (by decide) (circleInit 2) CircleReach.init (by decide)⟩

section CirclePure

/-- The loop state after `n` iterations (applied unconditionally; the
driver only ever uses the states whose whole prefix passed the guard). -/
def cIterFrom (st : CState) : Nat → CState
  | 0 => st
  | n + 1 => circleStep (cIterFrom st n)

def cIter (r : Nat) (n : Nat) : CState := cIterFrom (circleInit r) n

theorem cIterFrom_shift (st : CState) :
    ∀ n, cIterFrom (circleStep st) n = cIterFrom st (n + 1) := by
  intro n
  induction n with
  | zero => rfl
  | succ k ih => simp [cIterFrom, ih]

/-- Pure mirror of the `draw_circle` loop: the in-window points it plots,
in order. -/
def drawCirclePts (ww wh xc yc : Nat) : Nat → CState → List (Nat × Nat)
  | 0, _ => []
  | fuel + 1, s =>
    if circleGuard s then
      ((circlePlots xc yc s).filter fun p => decide (p.1 < ww ∧ p.2 < wh)) ++
        drawCirclePts ww wh xc yc fuel (circleStep s)
    else []

/-- Pure mirror of the `fill_circle` loop: the `(x, y, width)` arguments
of its `draw_hline` calls, in order. -/
def circleSpansList (xc yc : Nat) : Nat → CState → List (Nat × Nat × Nat)
  | 0, _ => []
  | fuel + 1, s =>
    if circleGuard s then
      circleSpans xc yc s ++ circleSpansList xc yc fuel (circleStep s)
    else []

/-- The pixels `fill_rect` commits: the clipped address-window rectangle.
When the streamed count matches the window area (every non-wrapping call)
this is exactly the filled region; a zero count yields an empty window
column range. -/
def fillRectPixels (ww wh x y w h : Nat) : List (Nat × Nat) :=
  if x ≥ ww ∨ y ≥ wh then []
  else
    (List.range (clipEnd y h wh + 1 - y)).flatMap fun j =>
      (List.range (clipEnd x w ww + 1 - x)).map fun i => (x + i, y + j)

/-- The union (as a list) of the horizontal spans `fill_circle` fills. -/
def fillCirclePixels (ww wh xc yc r : Nat) : List (Nat × Nat) :=
  (circleSpansList xc yc circleFuel (circleInit r)).flatMap fun sp =>
    fillRectPixels ww wh sp.1 sp.2.1 sp.2.2 1

/-- Closure of a pixel set under the 90-degree rotation about
`(cx, cy)`: the image of `(cx+a, cy+b)` is `(cx-b, cy+a)`. -/
def RotClosed (cx cy : Nat) (S : List (Nat × Nat)) : Prop :=
  ∀ p ∈ S, ∃ q ∈ S,
    (q.1 : Int) = (cx : Int) - ((p.2 : Int) - (cy : Int)) ∧
    (q.2 : Int) = (cy : Int) + ((p.1 : Int) - (cx : Int))

theorem mapM_drawPixel_run (c : Nat) (s : Lcd) (hdc : s.world.dcFail = false)
    (hspi : s.world.spiFail = none) :
    ∀ (l : List (Nat × Nat)) (acc : List Unit),
      List.mapM.loop (fun p => drawPixel p.1 p.2 c) l acc s =
        (.ok (acc.reverse ++ l.map fun _ => ()), s,
          (l.filter fun p => decide (p.1 < s.windowWidth ∧ p.2 < s.windowHeight)).flatMap
            fun p => pixelEvs p.1 p.2 c) := by
  intro l
  induction l with
  | nil => intro acc; simp [List.mapM.loop, pure_eq, M.pure]
  | cons p t ih =>
    intro acc
    by_cases hin : p.1 < s.windowWidth ∧ p.2 < s.windowHeight
    · simp [List.mapM.loop, bind_eq, M.bind,
        drawPixel_run_in _ _ _ _ hdc hspi hin.1 hin.2, ih, hin]
    · have hout : p.1 ≥ s.windowWidth ∨ p.2 ≥ s.windowHeight := by omega
      simp [List.mapM.loop, bind_eq, M.bind, drawPixel_run_out _ _ _ _ hout, ih, hin]

theorem drawCircleLoop_run (xc yc c : Nat) (s : Lcd) (hdc : s.world.dcFail = false)
    (hspi : s.world.spiFail = none) :
    ∀ (fuel : Nat) (st : CState),
      drawCircleLoop xc yc c fuel st s =
        (.ok (), s,
          (drawCirclePts s.windowWidth s.windowHeight xc yc fuel st).flatMap
            fun p => pixelEvs p.1 p.2 c) := by
  intro fuel
  induction fuel with
  | zero => intro st; simp [drawCircleLoop, drawCirclePts, M.pure]
  | succ n ih =>
    intro st
    by_cases hg : circleGuard st
    · simp [drawCircleLoop, drawCirclePts, hg, bind_eq, M.bind, List.mapM,
        mapM_drawPixel_run c s hdc hspi, ih, M.pure]
    · simp [drawCircleLoop, drawCirclePts, hg, M.pure]

theorem drawCircle_run (xc yc r c : Nat) (s : Lcd) (hdc : s.world.dcFail = false)
    (hspi : s.world.spiFail = none) :
    drawCircle xc yc r c s =
      (.ok (), s,
        (drawCirclePts s.windowWidth s.windowHeight xc yc circleFuel (circleInit r)).flatMap
          fun p => pixelEvs p.1 p.2 c) :=
  drawCircleLoop_run xc yc c s hdc hspi circleFuel (circleInit r)

theorem mapM_drawHline_run (c : Nat) (s : Lcd) (hdc : s.world.dcFail = false)
    (hspi : s.world.spiFail = none) :
    ∀ (l : List (Nat × Nat × Nat)) (acc : List Unit),
      List.mapM.loop (fun sp => drawHline sp.1 sp.2.1 sp.2.2 c) l acc s =
        (.ok (acc.reverse ++ l.map fun _ => ()), s,
          l.flatMap fun sp =>
            fillRectTr s.windowWidth s.windowHeight sp.1 sp.2.1 sp.2.2 1 c) := by
  intro l
  induction l with
  | nil => intro acc; simp [List.mapM.loop, pure_eq, M.pure]
  | cons sp t ih =>
    intro acc
    simp [List.mapM.loop, bind_eq, M.bind, drawHline_run _ _ _ _ _ hdc hspi, ih]

theorem fillCircleLoop_run (xc yc c : Nat) (s : Lcd) (hdc : s.world.dcFail = false)
    (hspi : s.world.spiFail = none) :
    ∀ (fuel : Nat) (st : CState),
      fillCircleLoop xc yc c fuel st s =
        (.ok (), s,
          (circleSpansList xc yc fuel st).flatMap fun sp =>
            fillRectTr s.windowWidth s.windowHeight sp.1 sp.2.1 sp.2.2 1 c) := by
  intro fuel
  induction fuel with
  | zero => intro st; simp [fillCircleLoop, circleSpansList, M.pure]
  | succ n ih =>
    intro st
    by_cases hg : circleGuard st
    · simp [fillCircleLoop, circleSpansList, hg, bind_eq, M.bind, List.mapM,
        mapM_drawHline_run c s hdc hspi, ih, M.pure]
    · simp [fillCircleLoop, circleSpansList, hg, M.pure]

theorem fillCircle_run (xc yc r c : Nat) (s : Lcd) (hdc : s.world.dcFail = false)
    (hspi : s.world.spiFail = none) :
    fillCircle xc yc r c s =
      (.ok (), s,
        (circleSpansList xc yc circleFuel (circleInit r)).flatMap fun sp =>
          fillRectTr s.windowWidth s.windowHeight sp.1 sp.2.1 sp.2.2 1 c) :=
  fillCircleLoop_run xc yc c s hdc hspi circleFuel (circleInit r)

end CirclePure

/-- C7, counterexample.  At the even centre (0, 0) with even radius 2 on
the 240x240 drawable region, `draw_circle` plots exactly
{(2,0), (0,2), (1,1)}: the rotation image of (0,2) about the centre would
be (-2, 0), which is off-canvas (the u16 arithmetic wraps it to 65534 and
clipping drops it), so the plotted set is not invariant under the
90-degree rotation; the span union of `fill_circle` at the same inputs is
{(0,2)} and is not invariant either. -/
theorem C7_counterexample :
    Even 0 ∧ Even 2 ∧
    ¬ RotClosed 0 0 (drawCirclePts 240 240 0 0 circleFuel (circleInit 2)) ∧
    ¬ RotClosed 0 0 (fillCirclePixels 240 240 0 0 2) := by
  refine ⟨by decide, by decide, ?_, ?_⟩ <;>
  · intro h
    have := h (0, 2) (by decide)
    revert this
    decide

section CircleSeq

theorem wrapI16_range (z : Int) : -32768 ≤ wrapI16 z ∧ wrapI16 z ≤ 32767 := by
  unfold wrapI16
  omega

theorem circleStep_y_range (s : CState) :
    -32768 ≤ (circleStep s).y ∧ (circleStep s).y ≤ 32767 := by
  unfold circleStep
  dsimp only
  exact wrapI16_range _

theorem cIter_succ (r n : Nat) : cIter r (n + 1) = circleStep (cIter r n) := rfl

theorem cIter_y_le (r n : Nat) (hy : (cIter r n).y = (n : Int)) : n ≤ 32767 := by
  cases n with
  | zero => omega
  | succ j =>
    have hrange := circleStep_y_range (cIter r j)
    rw [cIter_succ] at hy
    omega

theorem circleReach_cIter (r : Nat) :
    ∀ n, (∀ k, k < n → circleGuard (cIter r k)) → CircleReach r (cIter r n) := by
  intro n
  induction n with
  | zero => intro _; exact CircleReach.init
  | succ k ih =>
    intro h
    exact CircleReach.step (ih fun j hj => h j (by omega)) (h k (by omega))

theorem cIter_x0 (r : Nat) (hr : r ≤ 32767) : (cIter r 0).x = r := by
  show (circleInit r).x = r
  simp [circleInit, u16_id (by omega : r < 65536)]

theorem cIter_y_spec {r : Nat} (h1 : 1 ≤ r) (hr : r ≤ 32767) :
    ∀ n, (∀ k, k < n → circleGuard (cIter r k)) →
      (cIter r n).y = (n : Int) ∨ ((cIter r n).y = -32768 ∧ n = 32768) := by
  intro n
  induction n with
  | zero => intro _; left; rfl
  | succ k ih =>
    intro h
    have hg := h k (by omega)
    have hreach := circleReach_cIter r k fun j hj => h j (by omega)
    have hinv := circleReach_inv r h1 hr _ hreach
    have hky : (cIter r k).y = (k : Int) := by
      rcases ih (fun j hj => h j (by omega)) with hy | ⟨hw, _⟩
      · exact hy
      · exfalso
        unfold circleGuard at hg
        rw [hw] at hg
        have h327 : u16OfI16 (-32768) = 32768 := by decide
        have hxr : (cIter r k).x ≤ r := hinv.1
        omega
    have hk32 : k ≤ 32767 := cIter_y_le r k hky
    rw [cIter_succ]
    unfold circleStep
    dsimp only
    rw [hky]
    by_cases hlt : (k : Int) + 1 ≤ 32767
    · left
      rw [wrapI16_id (by omega) hlt]
      push_cast
      ring
    · right
      constructor
      · have hk327 : (k : Int) = 32767 := by omega
        rw [hk327]
        decide
      · omega

theorem cIter_guarded_facts {r : Nat} (h1 : 1 ≤ r) (hr : r ≤ 32767) (n : Nat)
    (hall : ∀ k, k ≤ n → circleGuard (cIter r k)) :
    (cIter r n).y = (n : Int) ∧ u16OfI16 (cIter r n).y = n ∧
      n ≤ (cIter r n).x ∧ (cIter r n).x ≤ r ∧ n ≤ r := by
  have hg := hall n le_rfl
  have hreach := circleReach_cIter r n fun k hk => hall k (by omega)
  have hinv := circleReach_inv r h1 hr _ hreach
  have hy : (cIter r n).y = (n : Int) := by
    rcases cIter_y_spec h1 hr n (fun k hk => hall k (by omega)) with hy | ⟨hw, _⟩
    · exact hy
    · exfalso
      unfold circleGuard at hg
      rw [hw] at hg
      have h327 : u16OfI16 (-32768) = 32768 := by decide
      have hxr : (cIter r n).x ≤ r := hinv.1
      omega
  have hn32 : n ≤ 32767 := cIter_y_le r n hy
  have hu : u16OfI16 (cIter r n).y = n := by
    rw [hy]
    unfold u16OfI16
    omega
  unfold circleGuard at hg
  rw [hu] at hg
  have hxr : (cIter r n).x ≤ r := hinv.1
  exact ⟨hy, hu, hg, hxr, by omega⟩

theorem cIter_x_step {r : Nat} (h1 : 1 ≤ r) (hr : r ≤ 32767) (n : Nat)
    (hall : ∀ k, k ≤ n → circleGuard (cIter r k)) :
    (cIter r (n + 1)).x = (cIter r n).x ∨
      ((cIter r (n + 1)).x + 1 = (cIter r n).x ∧ 1 ≤ (cIter r n).x) := by
  obtain ⟨hy, hu, hnx, hxr, hnr⟩ := cIter_guarded_facts h1 hr n hall
  have hx1 : 1 ≤ (cIter r n).x := by
    cases n with
    | zero => rw [cIter_x0 r hr]; omega
    | succ j => omega
  rw [cIter_succ]
  unfold circleStep
  dsimp only
  by_cases he :
      (if (cIter r n).err ≤ 0 then
        wrapI16 ((cIter r n).err + 2 * wrapI16 ((cIter r n).y + 1) + 1)
      else (cIter r n).err) > 0
  · right
    rw [if_pos he]
    rw [u16sub_exact (by omega) (by omega)]
    omega
  · left
    rw [if_neg he]

theorem cIter_x_antitone {r : Nat} (h1 : 1 ≤ r) (hr : r ≤ 32767) :
    ∀ (k j : Nat), j ≤ k → (∀ i, i < k → circleGuard (cIter r i)) →
      (cIter r k).x ≤ (cIter r j).x := by
  intro k
  induction k with
  | zero =>
    intro j hj _
    have : j = 0 := by omega
    subst this
    exact le_rfl
  | succ t ih =>
    intro j hj hall
    by_cases hjt : j = t + 1
    · subst hjt
      exact le_rfl
    · have hj2 : j ≤ t := by omega
      have hstep := cIter_x_step h1 hr t fun i hi => hall i (by omega)
      have hih := ih j hj2 fun i hi => hall i (by omega)
      rcases hstep with h | ⟨h, _⟩ <;> omega

theorem circle_m_exists {r : Nat} (h1 : 1 ≤ r) (hr : r ≤ 32767) :
    ∃ m, m ≤ r ∧ (∀ k, k ≤ m → circleGuard (cIter r k)) ∧
      ¬ circleGuard (cIter r (m + 1)) := by
  have hex : ∃ n, ¬ circleGuard (cIter r n) := by
    by_contra hc
    push_neg at hc
    obtain ⟨_, _, hnx, hxr, hnr⟩ := cIter_guarded_facts h1 hr (r + 1) fun k _ => hc k
    omega
  have hN := Nat.find_spec hex
  have h0 : circleGuard (cIter r 0) := by
    show circleGuard (circleInit r)
    unfold circleGuard circleInit u16OfI16
    simp
  have hN1 : 1 ≤ Nat.find hex := by
    by_contra hc
    have hz : Nat.find hex = 0 := by omega
    rw [hz] at hN
    exact hN h0
  have hg : ∀ k, k ≤ Nat.find hex - 1 → circleGuard (cIter r k) := by
    intro k hk
    by_contra hcg
    exact Nat.find_min hex (show k < Nat.find hex by omega) hcg
  refine ⟨Nat.find hex - 1, ?_, hg, ?_⟩
  · exact (cIter_guarded_facts h1 hr _ hg).2.2.2.2
  · have heq : Nat.find hex - 1 + 1 = Nat.find hex := by omega
    rw [heq]
    exact hN

theorem cIter_exit_bound {r : Nat} (h1 : 1 ≤ r) (hr : r ≤ 32767) {m : Nat}
    (hall : ∀ k, k ≤ m → circleGuard (cIter r k)) (hmr : m ≤ r)
    (hnm : ¬ circleGuard (cIter r (m + 1))) :
    (cIter r (m + 1)).x ≤ m ∧ (cIter r m).x ≤ m + 1 := by
  have hxr1 : (cIter r (m + 1)).x ≤ r :=
    (circleReach_inv r h1 hr _ (circleReach_cIter r (m + 1) fun k hk =>
      hall k (by omega))).1
  have hx1 : (cIter r (m + 1)).x ≤ m := by
    rcases cIter_y_spec h1 hr (m + 1) (fun k hk => hall k (by omega)) with hy | ⟨hw, hbig⟩
    · unfold circleGuard at hnm
      have hm32 : m + 1 ≤ 32767 := cIter_y_le r (m + 1) hy
      have hu : u16OfI16 (cIter r (m + 1)).y = m + 1 := by
        rw [hy]
        unfold u16OfI16
        omega
      omega
    · omega
  have hstep := cIter_x_step h1 hr m hall
  refine ⟨hx1, ?_⟩
  rcases hstep with h | ⟨h, _⟩ <;> omega

theorem cIter_ivt {r : Nat} (h1 : 1 ≤ r) (hr : r ≤ 32767) {m : Nat}
    (hall : ∀ k, k ≤ m → circleGuard (cIter r k)) (hmr : m ≤ r)
    (hnm : ¬ circleGuard (cIter r (m + 1))) :
    ∀ (d u v : Nat), m - u = d → u ≤ m → m < v → v ≤ (cIter r u).x →
      ∃ i, u ≤ i ∧ i ≤ m ∧ (cIter r i).x = v := by
  intro d
  induction d with
  | zero =>
    intro u v hd hu hv hvx
    have hum : u = m := by omega
    subst hum
    have hexit := cIter_exit_bound h1 hr hall hmr hnm
    exact ⟨u, le_rfl, le_rfl, by omega⟩
  | succ dd ih =>
    intro u v hd hu hv hvx
    by_cases hx : (cIter r u).x = v
    · exact ⟨u, le_rfl, hu, hx⟩
    · have hu1 : u + 1 ≤ m := by omega
      have hstep := cIter_x_step h1 hr u fun k hk => hall k (by omega)
      have hvx1 : v ≤ (cIter r (u + 1)).x := by
        rcases hstep with h | ⟨h, _⟩ <;> omega
      obtain ⟨i, hi1, hi2, hi3⟩ := ih (u + 1) v (by omega) hu1 hv hvx1
      exact ⟨i, by omega, hi2, hi3⟩

end CircleSeq

section CircleMem

theorem mem_drawCirclePtsAux (ww wh xc yc : Nat) :
    ∀ (fuel : Nat) (st : CState) (p : Nat × Nat),
      p ∈ drawCirclePts ww wh xc yc fuel st ↔
        ∃ n, n < fuel ∧ (∀ k, k ≤ n → circleGuard (cIterFrom st k)) ∧
          p ∈ (circlePlots xc yc (cIterFrom st n)).filter
                fun q => decide (q.1 < ww ∧ q.2 < wh) := by
  intro fuel
  induction fuel with
  | zero =>
    intro st p
    simp [drawCirclePts]
  | succ f ih =>
    intro st p
    by_cases hg : circleGuard st
    · rw [drawCirclePts, if_pos hg, List.mem_append]
      constructor
      · rintro (h | h)
        · refine ⟨0, by omega, ?_, h⟩
          intro k hk
          have hk0 : k = 0 := by omega
          subst hk0
          exact hg
        · obtain ⟨n, hn, hall, hmem⟩ := (ih (circleStep st) p).mp h
          refine ⟨n + 1, by omega, ?_, ?_⟩
          · intro k hk
            cases k with
            | zero => exact hg
            | succ j =>
              rw [← cIterFrom_shift st j]
              exact hall j (by omega)
          · rw [← cIterFrom_shift st n]
            exact hmem
      · rintro ⟨n, hn, hall, hmem⟩
        cases n with
        | zero => exact Or.inl hmem
        | succ j =>
          right
          refine (ih (circleStep st) p).mpr ⟨j, by omega, ?_, ?_⟩
          · intro k hk
            rw [cIterFrom_shift st k]
            exact hall (k + 1) (by omega)
          · rw [cIterFrom_shift st j]
            exact hmem
    · rw [drawCirclePts, if_neg hg]
      simp only [List.not_mem_nil, false_iff]
      rintro ⟨n, hn, hall, hmem⟩
      exact hg (hall 0 (by omega))

theorem mem_circleSpansListAux (xc yc : Nat) :
    ∀ (fuel : Nat) (st : CState) (sp : Nat × Nat × Nat),
      sp ∈ circleSpansList xc yc fuel st ↔
        ∃ n, n < fuel ∧ (∀ k, k ≤ n → circleGuard (cIterFrom st k)) ∧
          sp ∈ circleSpans xc yc (cIterFrom st n) := by
  intro fuel
  induction fuel with
  | zero =>
    intro st sp
    simp [circleSpansList]
  | succ f ih =>
    intro st sp
    by_cases hg : circleGuard st
    · rw [circleSpansList, if_pos hg, List.mem_append]
      constructor
      · rintro (h | h)
        · refine ⟨0, by omega, ?_, h⟩
          intro k hk
          have hk0 : k = 0 := by omega
          subst hk0
          exact hg
        · obtain ⟨n, hn, hall, hmem⟩ := (ih (circleStep st) sp).mp h
          refine ⟨n + 1, by omega, ?_, ?_⟩
          · intro k hk
            cases k with
            | zero => exact hg
            | succ j =>
              rw [← cIterFrom_shift st j]
              exact hall j (by omega)
          · rw [← cIterFrom_shift st n]
            exact hmem
      · rintro ⟨n, hn, hall, hmem⟩
        cases n with
        | zero => exact Or.inl hmem
        | succ j =>
          right
          refine (ih (circleStep st) sp).mpr ⟨j, by omega, ?_, ?_⟩
          · intro k hk
            rw [cIterFrom_shift st k]
            exact hall (k + 1) (by omega)
          · rw [cIterFrom_shift st j]
            exact hmem
    · rw [circleSpansList, if_neg hg]
      simp only [List.not_mem_nil, false_iff]
      rintro ⟨n, hn, hall, hmem⟩
      exact hg (hall 0 (by omega))

/-- With the exit index `m` in hand, the guarded-prefix condition is
exactly `n ≤ m`, and any such `n` is below the fuel bound. -/
theorem guardedUpTo_iff_le {r m : Nat} (hmr : m ≤ r)
    (hall : ∀ k, k ≤ m → circleGuard (cIter r k))
    (hnm : ¬ circleGuard (cIter r (m + 1))) (n : Nat) :
    ((∀ k, k ≤ n → circleGuard (cIter r k)) ↔ n ≤ m) := by
  constructor
  · intro h
    by_contra hc
    exact hnm (h (m + 1) (by omega))
  · intro h k hk
    exact hall k (by omega)

end CircleMem

section CircleSym

theorem mem_fillRectPixels_row {ww wh x y w : Nat} (hxw : x < ww) (hyh : y < wh)
    (hfit : x + w ≤ ww) (hww : ww ≤ 65536) (hwh : wh ≤ 65536)
    (hw1 : 1 ≤ w) (px py : Nat) :
    ((px, py) ∈ fillRectPixels ww wh x y w 1) ↔
      (py = y ∧ x ≤ px ∧ px < x + w) := by
  unfold fillRectPixels
  rw [if_neg (by omega)]
  have hclipy : clipEnd y 1 wh = y := by
    unfold clipEnd u16sub u16 Nat.min
    rw [Nat.min_def]
    split <;> omega
  have hclipx : clipEnd x w ww = x + w - 1 := by
    unfold clipEnd u16sub u16 Nat.min
    rw [Nat.min_def]
    split <;> omega
  rw [hclipy, hclipx]
  simp only [List.mem_flatMap, List.mem_range, List.mem_map]
  constructor
  · rintro ⟨j, hj, i, hi, hpq⟩
    rw [Prod.mk.injEq] at hpq
    obtain ⟨h1', h2'⟩ := hpq
    refine ⟨?_, ?_, ?_⟩ <;> omega
  · rintro ⟨hpy, hxl, hxu⟩
    refine ⟨0, by omega, px - x, by omega, ?_⟩
    rw [Prod.mk.injEq]
    omega

/-- The staircase symmetry at the heart of the midpoint algorithm: the
union of the horizontal segments `{(u, n) : u ≤ x_n}` and the vertical
segments `{(x_n, v) : v ≤ n}` over the guarded iterations `n ≤ m` is
symmetric in the two coordinates. -/
theorem spanOff_symm {r : Nat} (h1 : 1 ≤ r) (hr32 : r ≤ 32767) {m : Nat}
    (hall : ∀ k, k ≤ m → circleGuard (cIter r k)) (hmr : m ≤ r)
    (hnm : ¬ circleGuard (cIter r (m + 1))) (u v : Nat)
    (h : (∃ n, n ≤ m ∧ v = n ∧ u ≤ (cIter r n).x) ∨
         (∃ n, n ≤ m ∧ v = (cIter r n).x ∧ u ≤ n)) :
    (∃ n, n ≤ m ∧ u = n ∧ v ≤ (cIter r n).x) ∨
      (∃ n, n ≤ m ∧ u = (cIter r n).x ∧ v ≤ n) := by
  rcases h with ⟨n, hn, hv, hu⟩ | ⟨n, hn, hv, hu⟩
  · by_cases hum : u ≤ m
    · left
      refine ⟨u, hum, rfl, ?_⟩
      have hxm := (cIter_guarded_facts h1 hr32 m hall).2.2.1
      have hanti := cIter_x_antitone h1 hr32 m u hum fun i hi => hall i (by omega)
      omega
    · right
      obtain ⟨i, hi1, hi2, hieq⟩ :=
        cIter_ivt h1 hr32 hall hmr hnm (m - n) n u rfl (by omega) (by omega) hu
      exact ⟨i, hi2, hieq.symm, by omega⟩
  · left
    refine ⟨u, by omega, rfl, ?_⟩
    have hanti := cIter_x_antitone h1 hr32 n u hu fun i hi => hall i (by omega)
    omega

set_option maxHeartbeats 800000 in
theorem mem_drawCirclePts_char {ww wh cx cy r m : Nat}
    (h1 : 1 ≤ r) (hr32 : r ≤ 32767)
    (hall : ∀ k, k ≤ m → circleGuard (cIter r k))
    (hmr : m ≤ r) (hnm : ¬ circleGuard (cIter r (m + 1)))
    (hrcx : r ≤ cx) (hrcy : r ≤ cy)
    (hcxw : cx + r < ww) (hcyw : cy + r < wh)
    (hww : ww ≤ 65536) (hwh : wh ≤ 65536)
    (px py : Nat) :
    ((px, py) ∈ drawCirclePts ww wh cx cy circleFuel (circleInit r)) ↔
      (∃ n, n ≤ m ∧
        (((px = cx + (cIter r n).x ∨ px = cx - (cIter r n).x) ∧
          (py = cy + n ∨ py = cy - n)) ∨
         ((px = cx + n ∨ px = cx - n) ∧
          (py = cy + (cIter r n).x ∨ py = cy - (cIter r n).x)))) := by
  have hfuel : circleFuel = 40000 := rfl
  rw [mem_drawCirclePtsAux]
  simp only [show ∀ k, cIterFrom (circleInit r) k = cIter r k from fun k => rfl]
  constructor
  · rintro ⟨n, hnf, hguard, hmem⟩
    have hnle : n ≤ m := (guardedUpTo_iff_le hmr hall hnm n).mp hguard
    obtain ⟨hy, hu, hnx, hxr, hnr⟩ :=
      cIter_guarded_facts h1 hr32 n fun k hk => hall k (by omega)
    have hA1 : u16 (cx + (cIter r n).x) = cx + (cIter r n).x := u16_id (by omega)
    have hA2 : u16 (cx + n) = cx + n := u16_id (by omega)
    have hA3 : u16sub cx (cIter r n).x = cx - (cIter r n).x :=
      u16sub_exact (by omega) (by omega)
    have hA4 : u16sub cx n = cx - n := u16sub_exact (by omega) (by omega)
    have hB1 : u16 (cy + (cIter r n).x) = cy + (cIter r n).x := u16_id (by omega)
    have hB2 : u16 (cy + n) = cy + n := u16_id (by omega)
    have hB3 : u16sub cy (cIter r n).x = cy - (cIter r n).x :=
      u16sub_exact (by omega) (by omega)
    have hB4 : u16sub cy n = cy - n := u16sub_exact (by omega) (by omega)
    simp only [circlePlots, hu, hA1, hA2, hA3, hA4, hB1, hB2, hB3, hB4,
      List.mem_filter, List.mem_cons, List.not_mem_nil, or_false,
      Prod.mk.injEq, decide_eq_true_eq] at hmem
    refine ⟨n, hnle, ?_⟩
    omega
  · rintro ⟨n, hnle, hbody⟩
    obtain ⟨hy, hu, hnx, hxr, hnr⟩ :=
      cIter_guarded_facts h1 hr32 n fun k hk => hall k (by omega)
    have hA1 : u16 (cx + (cIter r n).x) = cx + (cIter r n).x := u16_id (by omega)
    have hA2 : u16 (cx + n) = cx + n := u16_id (by omega)
    have hA3 : u16sub cx (cIter r n).x = cx - (cIter r n).x :=
      u16sub_exact (by omega) (by omega)
    have hA4 : u16sub cx n = cx - n := u16sub_exact (by omega) (by omega)
    have hB1 : u16 (cy + (cIter r n).x) = cy + (cIter r n).x := u16_id (by omega)
    have hB2 : u16 (cy + n) = cy + n := u16_id (by omega)
    have hB3 : u16sub cy (cIter r n).x = cy - (cIter r n).x :=
      u16sub_exact (by omega) (by omega)
    have hB4 : u16sub cy n = cy - n := u16sub_exact (by omega) (by omega)
    refine ⟨n, by omega, (guardedUpTo_iff_le hmr hall hnm n).mpr hnle, ?_⟩
    rcases hbody with ⟨hx | hx, hy' | hy'⟩ | ⟨hx | hx, hy' | hy'⟩ <;> subst hx <;> subst hy' <;>
      refine List.mem_filter.mpr ⟨?_, by simp only [decide_eq_true_eq]; omega⟩ <;>
      · simp only [circlePlots, hu, hA1, hA2, hA3, hA4, hB1, hB2, hB3, hB4, List.mem_cons]
        tauto

set_option maxHeartbeats 800000 in
theorem mem_fillCirclePixels_char {ww wh cx cy r m : Nat}
    (h1 : 1 ≤ r) (hr32 : r ≤ 32767)
    (hall : ∀ k, k ≤ m → circleGuard (cIter r k))
    (hmr : m ≤ r) (hnm : ¬ circleGuard (cIter r (m + 1)))
    (hrcx : r ≤ cx) (hrcy : r ≤ cy)
    (hcxw : cx + r < ww) (hcyw : cy + r < wh)
    (hww : ww ≤ 65536) (hwh : wh ≤ 65536)
    (px py : Nat) :
    ((px, py) ∈ fillCirclePixels ww wh cx cy r) ↔
      (∃ n, n ≤ m ∧
        ((py = cy + n ∧ cx - (cIter r n).x ≤ px ∧ px ≤ cx + (cIter r n).x) ∨
         (py = cy + (cIter r n).x ∧ cx - n ≤ px ∧ px ≤ cx + n) ∨
         (py = cy - n ∧ cx - (cIter r n).x ≤ px ∧ px ≤ cx + (cIter r n).x) ∨
         (py = cy - (cIter r n).x ∧ cx - n ≤ px ∧ px ≤ cx + n))) := by
  have hfuel : circleFuel = 40000 := rfl
  unfold fillCirclePixels
  rw [List.mem_flatMap]
  constructor
  · rintro ⟨sp, hsp, hpx⟩
    obtain ⟨sx, sy, sw⟩ := sp
    rw [mem_circleSpansListAux] at hsp
    obtain ⟨n, hnf, hguard, hspmem⟩ := hsp
    simp only [show ∀ k, cIterFrom (circleInit r) k = cIter r k from fun k => rfl]
      at hguard hspmem
    have hnle : n ≤ m := (guardedUpTo_iff_le hmr hall hnm n).mp hguard
    obtain ⟨hy, hu, hnx, hxr, hnr⟩ :=
      cIter_guarded_facts h1 hr32 n fun k hk => hall k (by omega)
    have hA3 : u16sub cx (cIter r n).x = cx - (cIter r n).x :=
      u16sub_exact (by omega) (by omega)
    have hA4 : u16sub cx n = cx - n := u16sub_exact (by omega) (by omega)
    have hB1 : u16 (cy + (cIter r n).x) = cy + (cIter r n).x := u16_id (by omega)
    have hB2 : u16 (cy + n) = cy + n := u16_id (by omega)
    have hB3 : u16sub cy (cIter r n).x = cy - (cIter r n).x :=
      u16sub_exact (by omega) (by omega)
    have hB4 : u16sub cy n = cy - n := u16sub_exact (by omega) (by omega)
    have hW1 : u16 (2 * (cIter r n).x + 1) = 2 * (cIter r n).x + 1 := u16_id (by omega)
    have hW2 : u16 (2 * n + 1) = 2 * n + 1 := u16_id (by omega)
    simp only [circleSpans, hu, hA3, hA4, hB1, hB2, hB3, hB4, hW1, hW2,
      List.mem_cons, List.not_mem_nil, or_false, Prod.mk.injEq] at hspmem
    refine ⟨n, hnle, ?_⟩
    rcases hspmem with ⟨rfl, rfl, rfl⟩ | ⟨rfl, rfl, rfl⟩ | ⟨rfl, rfl, rfl⟩ | ⟨rfl, rfl, rfl⟩
    · rw [@mem_fillRectPixels_row ww wh (cx - (cIter r n).x) (cy + n)
        (2 * (cIter r n).x + 1) (by omega) (by omega) (by omega) (by omega)
        (by omega) (by omega) px py] at hpx
      omega
    · rw [@mem_fillRectPixels_row ww wh (cx - n) (cy + (cIter r n).x)
        (2 * n + 1) (by omega) (by omega) (by omega) (by omega)
        (by omega) (by omega) px py] at hpx
      omega
    · rw [@mem_fillRectPixels_row ww wh (cx - (cIter r n).x) (cy - n)
        (2 * (cIter r n).x + 1) (by omega) (by omega) (by omega) (by omega)
        (by omega) (by omega) px py] at hpx
      omega
    · rw [@mem_fillRectPixels_row ww wh (cx - n) (cy - (cIter r n).x)
        (2 * n + 1) (by omega) (by omega) (by omega) (by omega)
        (by omega) (by omega) px py] at hpx
      omega
  · rintro ⟨n, hnle, hbody⟩
    obtain ⟨hy, hu, hnx, hxr, hnr⟩ :=
      cIter_guarded_facts h1 hr32 n fun k hk => hall k (by omega)
    have hA3 : u16sub cx (cIter r n).x = cx - (cIter r n).x :=
      u16sub_exact (by omega) (by omega)
    have hA4 : u16sub cx n = cx - n := u16sub_exact (by omega) (by omega)
    have hB1 : u16 (cy + (cIter r n).x) = cy + (cIter r n).x := u16_id (by omega)
    have hB2 : u16 (cy + n) = cy + n := u16_id (by omega)
    have hB3 : u16sub cy (cIter r n).x = cy - (cIter r n).x :=
      u16sub_exact (by omega) (by omega)
    have hB4 : u16sub cy n = cy - n := u16sub_exact (by omega) (by omega)
    have hW1 : u16 (2 * (cIter r n).x + 1) = 2 * (cIter r n).x + 1 := u16_id (by omega)
    have hW2 : u16 (2 * n + 1) = 2 * n + 1 := u16_id (by omega)
    have hmemaux : ∀ sp, sp ∈ circleSpans cx cy (cIter r n) →
        sp ∈ circleSpansList cx cy circleFuel (circleInit r) := by
      intro sp hsp
      rw [mem_circleSpansListAux]
      refine ⟨n, by omega, ?_, ?_⟩ <;>
        simp only [show ∀ k, cIterFrom (circleInit r) k = cIter r k from fun k => rfl]
      · exact (guardedUpTo_iff_le hmr hall hnm n).mpr hnle
      · exact hsp
    rcases hbody with ⟨hpy, hl, hu'⟩ | ⟨hpy, hl, hu'⟩ | ⟨hpy, hl, hu'⟩ | ⟨hpy, hl, hu'⟩
    · refine ⟨(cx - (cIter r n).x, cy + n, 2 * (cIter r n).x + 1), hmemaux _ ?_, ?_⟩
      · simp only [circleSpans, hu, hA3, hB2, hW1, List.mem_cons]
        tauto
      · exact (@mem_fillRectPixels_row ww wh (cx - (cIter r n).x) (cy + n)
          (2 * (cIter r n).x + 1) (by omega) (by omega) (by omega) (by omega)
          (by omega) (by omega) px py).mpr (by omega)
    · refine ⟨(cx - n, cy + (cIter r n).x, 2 * n + 1), hmemaux _ ?_, ?_⟩
      · simp only [circleSpans, hu, hA4, hB1, hW2, List.mem_cons]
        tauto
      · exact (@mem_fillRectPixels_row ww wh (cx - n) (cy + (cIter r n).x)
          (2 * n + 1) (by omega) (by omega) (by omega) (by omega)
          (by omega) (by omega) px py).mpr (by omega)
    · refine ⟨(cx - (cIter r n).x, cy - n, 2 * (cIter r n).x + 1), hmemaux _ ?_, ?_⟩
      · simp only [circleSpans, hu, hA3, hB4, hW1, List.mem_cons]
        tauto
      · exact (@mem_fillRectPixels_row ww wh (cx - (cIter r n).x) (cy - n)
          (2 * (cIter r n).x + 1) (by omega) (by omega) (by omega) (by omega)
          (by omega) (by omega) px py).mpr (by omega)
    · refine ⟨(cx - n, cy - (cIter r n).x, 2 * n + 1), hmemaux _ ?_, ?_⟩
      · simp only [circleSpans, hu, hA4, hB3, hW2, List.mem_cons]
        tauto
      · exact (@mem_fillRectPixels_row ww wh (cx - n) (cy - (cIter r n).x)
          (2 * n + 1) (by omega) (by omega) (by omega) (by omega)
          (by omega) (by omega) px py).mpr (by omega)

end CircleSym

section C7

theorem rotClosed_drawCirclePts {ww wh cx cy r : Nat}
    (h1 : 1 ≤ r) (hrcx : r ≤ cx) (hrcy : r ≤ cy)
    (hcxw : cx + r < ww) (hcyw : cy + r < wh)
    (hww : ww ≤ 65536) (hwh : wh ≤ 65536) :
    RotClosed cx cy (drawCirclePts ww wh cx cy circleFuel (circleInit r)) := by
  have hr32 : r ≤ 32767 := by omega
  obtain ⟨m, hmr, hall, hnm⟩ := circle_m_exists h1 hr32
  intro p hp
  rcases p with ⟨px, py⟩
  rw [mem_drawCirclePts_char h1 hr32 hall hmr hnm hrcx hrcy hcxw hcyw hww hwh] at hp
  obtain ⟨n, hnm', hbody⟩ := hp
  obtain ⟨hy, hu, hnx, hxr, hnr⟩ :=
    cIter_guarded_facts h1 hr32 n fun k hk => hall k (by omega)
  rcases hbody with ⟨hx | hx, hy' | hy'⟩ | ⟨hx | hx, hy' | hy'⟩
  · exact ⟨(cx - n, cy + (cIter r n).x),
      (mem_drawCirclePts_char h1 hr32 hall hmr hnm hrcx hrcy hcxw hcyw hww hwh _ _).mpr
        ⟨n, hnm', by omega⟩, by omega, by omega⟩
  · exact ⟨(cx + n, cy + (cIter r n).x),
      (mem_drawCirclePts_char h1 hr32 hall hmr hnm hrcx hrcy hcxw hcyw hww hwh _ _).mpr
        ⟨n, hnm', by omega⟩, by omega, by omega⟩
  · exact ⟨(cx - n, cy - (cIter r n).x),
      (mem_drawCirclePts_char h1 hr32 hall hmr hnm hrcx hrcy hcxw hcyw hww hwh _ _).mpr
        ⟨n, hnm', by omega⟩, by omega, by omega⟩
  · exact ⟨(cx + n, cy - (cIter r n).x),
      (mem_drawCirclePts_char h1 hr32 hall hmr hnm hrcx hrcy hcxw hcyw hww hwh _ _).mpr
        ⟨n, hnm', by omega⟩, by omega, by omega⟩
  · exact ⟨(cx - (cIter r n).x, cy + n),
      (mem_drawCirclePts_char h1 hr32 hall hmr hnm hrcx hrcy hcxw hcyw hww hwh _ _).mpr
        ⟨n, hnm', by omega⟩, by omega, by omega⟩
  · exact ⟨(cx + (cIter r n).x, cy + n),
      (mem_drawCirclePts_char h1 hr32 hall hmr hnm hrcx hrcy hcxw hcyw hww hwh _ _).mpr
        ⟨n, hnm', by omega⟩, by omega, by omega⟩
  · exact ⟨(cx - (cIter r n).x, cy - n),
      (mem_drawCirclePts_char h1 hr32 hall hmr hnm hrcx hrcy hcxw hcyw hww hwh _ _).mpr
        ⟨n, hnm', by omega⟩, by omega, by omega⟩
  · exact ⟨(cx + (cIter r n).x, cy - n),
      (mem_drawCirclePts_char h1 hr32 hall hmr hnm hrcx hrcy hcxw hcyw hww hwh _ _).mpr
        ⟨n, hnm', by omega⟩, by omega, by omega⟩

theorem rotClosed_fillCirclePixels {ww wh cx cy r : Nat}
    (h1 : 1 ≤ r) (hrcx : r ≤ cx) (hrcy : r ≤ cy)
    (hcxw : cx + r < ww) (hcyw : cy + r < wh)
    (hww : ww ≤ 65536) (hwh : wh ≤ 65536) :
    RotClosed cx cy (fillCirclePixels ww wh cx cy r) := by
  have hr32 : r ≤ 32767 := by omega
  obtain ⟨m, hmr, hall, hnm⟩ := circle_m_exists h1 hr32
  intro p hp
  rcases p with ⟨px, py⟩
  rw [mem_fillCirclePixels_char h1 hr32 hall hmr hnm hrcx hrcy hcxw hcyw hww hwh] at hp
  obtain ⟨n, hnm', hbody⟩ := hp
  obtain ⟨hy, hu, hnx, hxr, hnr⟩ :=
    cIter_guarded_facts h1 hr32 n fun k hk => hall k (by omega)
  rcases hbody with ⟨hpy, hlo, hhi⟩ | ⟨hpy, hlo, hhi⟩ | ⟨hpy, hlo, hhi⟩ | ⟨hpy, hlo, hhi⟩
  · by_cases hs : cx ≤ px
    · refine ⟨(cx - n, cy + (px - cx)), ?_, by omega, by omega⟩
      have hSP := spanOff_symm h1 hr32 hall hmr hnm (px - cx) n
        (Or.inl ⟨n, hnm', rfl, by omega⟩)
      rcases hSP with ⟨i, him, hieq, hile⟩ | ⟨i, him, hieq, hile⟩ <;>
        exact (mem_fillCirclePixels_char h1 hr32 hall hmr hnm hrcx hrcy hcxw hcyw
          hww hwh _ _).mpr ⟨i, him, by omega⟩
    · refine ⟨(cx - n, cy - (cx - px)), ?_, by omega, by omega⟩
      have hSP := spanOff_symm h1 hr32 hall hmr hnm (cx - px) n
        (Or.inl ⟨n, hnm', rfl, by omega⟩)
      rcases hSP with ⟨i, him, hieq, hile⟩ | ⟨i, him, hieq, hile⟩ <;>
        exact (mem_fillCirclePixels_char h1 hr32 hall hmr hnm hrcx hrcy hcxw hcyw
          hww hwh _ _).mpr ⟨i, him, by omega⟩
  · by_cases hs : cx ≤ px
    · refine ⟨(cx - (cIter r n).x, cy + (px - cx)), ?_, by omega, by omega⟩
      have hSP := spanOff_symm h1 hr32 hall hmr hnm (px - cx) (cIter r n).x
        (Or.inr ⟨n, hnm', rfl, by omega⟩)
      rcases hSP with ⟨i, him, hieq, hile⟩ | ⟨i, him, hieq, hile⟩ <;>
        exact (mem_fillCirclePixels_char h1 hr32 hall hmr hnm hrcx hrcy hcxw hcyw
          hww hwh _ _).mpr ⟨i, him, by omega⟩
    · refine ⟨(cx - (cIter r n).x, cy - (cx - px)), ?_, by omega, by omega⟩
      have hSP := spanOff_symm h1 hr32 hall hmr hnm (cx - px) (cIter r n).x
        (Or.inr ⟨n, hnm', rfl, by omega⟩)
      rcases hSP with ⟨i, him, hieq, hile⟩ | ⟨i, him, hieq, hile⟩ <;>
        exact (mem_fillCirclePixels_char h1 hr32 hall hmr hnm hrcx hrcy hcxw hcyw
          hww hwh _ _).mpr ⟨i, him, by omega⟩
  · by_cases hs : cx ≤ px
    · refine ⟨(cx + n, cy + (px - cx)), ?_, by omega, by omega⟩
      have hSP := spanOff_symm h1 hr32 hall hmr hnm (px - cx) n
        (Or.inl ⟨n, hnm', rfl, by omega⟩)
      rcases hSP with ⟨i, him, hieq, hile⟩ | ⟨i, him, hieq, hile⟩ <;>
        exact (mem_fillCirclePixels_char h1 hr32 hall hmr hnm hrcx hrcy hcxw hcyw
          hww hwh _ _).mpr ⟨i, him, by omega⟩
    · refine ⟨(cx + n, cy - (cx - px)), ?_, by omega, by omega⟩
      have hSP := spanOff_symm h1 hr32 hall hmr hnm (cx - px) n
        (Or.inl ⟨n, hnm', rfl, by omega⟩)
      rcases hSP with ⟨i, him, hieq, hile⟩ | ⟨i, him, hieq, hile⟩ <;>
        exact (mem_fillCirclePixels_char h1 hr32 hall hmr hnm hrcx hrcy hcxw hcyw
          hww hwh _ _).mpr ⟨i, him, by omega⟩
  · by_cases hs : cx ≤ px
    · refine ⟨(cx + (cIter r n).x, cy + (px - cx)), ?_, by omega, by omega⟩
      have hSP := spanOff_symm h1 hr32 hall hmr hnm (px - cx) (cIter r n).x
        (Or.inr ⟨n, hnm', rfl, by omega⟩)
      rcases hSP with ⟨i, him, hieq, hile⟩ | ⟨i, him, hieq, hile⟩ <;>
        exact (mem_fillCirclePixels_char h1 hr32 hall hmr hnm hrcx hrcy hcxw hcyw
          hww hwh _ _).mpr ⟨i, him, by omega⟩
    · refine ⟨(cx + (cIter r n).x, cy - (cx - px)), ?_, by omega, by omega⟩
      have hSP := spanOff_symm h1 hr32 hall hmr hnm (cx - px) (cIter r n).x
        (Or.inr ⟨n, hnm', rfl, by omega⟩)
      rcases hSP with ⟨i, him, hieq, hile⟩ | ⟨i, him, hieq, hile⟩ <;>
        exact (mem_fillCirclePixels_char h1 hr32 hall hmr hnm hrcx hrcy hcxw hcyw
          hww hwh _ _).mpr ⟨i, him, by omega⟩

/-- C7: for every even center `(cx, cy)` and even radius `r` — provided
additionally `1 ≤ r` and the circle fits inside the drawable window
(`r ≤ cx`, `r ≤ cy`, `cx + r < width`, `cy + r < height`, the extent a
real u16 value) — the pixel set plotted by `draw_circle` is invariant
under the 90-degree rotation `(cx+a, cy+b) ↦ (cx-b, cy+a)` about the
center, and so is the union of horizontal spans filled by `fill_circle`;
on a fault-free bus both calls succeed and their traces commit exactly
those pixel sets. -/
theorem C7_circle_rotation_symmetry (cx cy r c : Nat) (s : Lcd)
    (hecx : Even cx) (hecy : Even cy) (her : Even r) (h1 : 1 ≤ r)
    (hrcx : r ≤ cx) (hrcy : r ≤ cy)
    (hcxw : cx + r < s.windowWidth) (hcyw : cy + r < s.windowHeight)
    (hww : s.windowWidth ≤ 65536) (hwh : s.windowHeight ≤ 65536)
    (hdc : s.world.dcFail = false) (hspi : s.world.spiFail = none) :
    drawCircle cx cy r c s =
      (.ok (), s,
        (drawCirclePts s.windowWidth s.windowHeight cx cy circleFuel
          (circleInit r)).flatMap fun p => pixelEvs p.1 p.2 c) ∧
    fillCircle cx cy r c s =
      (.ok (), s,
        (circleSpansList cx cy circleFuel (circleInit r)).flatMap fun sp =>
          fillRectTr s.windowWidth s.windowHeight sp.1 sp.2.1 sp.2.2 1 c) ∧
    RotClosed cx cy
      (drawCirclePts s.windowWidth s.windowHeight cx cy circleFuel (circleInit r)) ∧
    RotClosed cx cy (fillCirclePixels s.windowWidth s.windowHeight cx cy r) :=
  ⟨drawCircle_run cx cy r c s hdc hspi,
   fillCircle_run cx cy r c s hdc hspi,
   rotClosed_drawCirclePts h1 hrcx hrcy hcxw hcyw hww hwh,
   rotClosed_fillCirclePixels h1 hrcx hrcy hcxw hcyw hww hwh⟩

/-- Witness: the claim theorem applied to center (100, 100), radius 2,
color 31 on the freshly constructed 240x240 display. -/
theorem C7_circle_rotation_symmetry_witness :
    (Even 100 ∧ Even 2 ∧ 1 ≤ 2 ∧ 2 ≤ 100 ∧ 100 + 2 < 240) ∧
    (drawCircle 100 100 2 31 lcd240 =
      (.ok (), lcd240,
        (drawCirclePts 240 240 100 100 circleFuel (circleInit 2)).flatMap
          fun p => pixelEvs p.1 p.2 31) ∧
    fillCircle 100 100 2 31 lcd240 =
      (.ok (), lcd240,
        (circleSpansList 100 100 circleFuel (circleInit 2)).flatMap fun sp =>
          fillRectTr 240 240 sp.1 sp.2.1 sp.2.2 1 31) ∧
    RotClosed 100 100 (drawCirclePts 240 240 100 100 circleFuel (circleInit 2)) ∧
    RotClosed 100 100 (fillCirclePixels 240 240 100 100 2)) :=
  ⟨⟨by decide, by decide, by decide, by decide, by decide⟩,
   C7_circle_rotation_symmetry 100 100 2 31 lcd240 (by decide) (by decide) (by decide)
     (by decide) (by decide) (by decide) (by decide) (by decide) (by decide) (by decide)
     rfl rfl⟩

end C7

section C8

/-- The delta `if a0 > a1 { a0 - a1 } else { a1 - a0 }` of `draw_line`
(lcd.rs 331-332), one axis. -/
def lineDx (a0 a1 : Int) : Int := if a0 > a1 then a0 - a1 else a1 - a0

/-- The step direction `if a0 < a1 { 1 } else { -1 }` (lcd.rs 335-336). -/
def lineSx (a0 a1 : Int) : Int := if a0 < a1 then 1 else -1

/-- The error initialisation `(if dx > dy { dx } else { -dy }) / 2`
(lcd.rs 339), truncating division. -/
def lineErr0 (dx dy : Int) : Int := Int.tdiv (if dx > dy then dx else -dy) 2

theorem linePtsLoop_break (ww wh : Nat) (dx dy sx sy x1 y1 : Int) (fuel : Nat)
    (x y err : Int) (hf : 1 ≤ fuel) (hx : x = x1) (hyy : y = y1) :
    (linePtsLoop ww wh dx dy sx sy x1 y1 fuel x y err).2 = true := by
  cases fuel with
  | zero => omega
  | succ f =>
    simp only [linePtsLoop]
    rw [if_pos ⟨hx, hyy⟩]

theorem linePts_reach_xmajor (ww wh : Nat) (dx dy sx sy x1 y1 : Int)
    (hdx1 : 1 ≤ dx) (hdy0 : 0 ≤ dy) (hmaj : dy < dx)
    (hsx : sx = 1 ∨ sx = -1) (hsy : sy = 1 ∨ sy = -1) :
    ∀ (j : Nat), ∀ (fuel t : Nat) (x y err : Int),
      x = x1 - (j : Int) * sx → y = y1 - (t : Int) * sy →
      0 ≤ err → err < dx →
      0 ≤ err + (t : Int) * dx - (j : Int) * dy →
      err + (t : Int) * dx - (j : Int) * dy < dx →
      j + 1 ≤ fuel →
      (linePtsLoop ww wh dx dy sx sy x1 y1 fuel x y err).2 = true := by
  intro j
  induction j with
  | zero =>
    intro fuel t x y err hx hyy hE0 hE1 hC0 hC1 hfuel
    have ht0 : t = 0 := by
      by_contra hc
      have hg : dx ≤ (t : Int) * dx := le_mul_of_one_le_left (by omega) (by omega)
      push_cast at hC1
      linarith
    subst ht0
    push_cast at hx hyy
    exact linePtsLoop_break ww wh dx dy sx sy x1 y1 fuel x y err (by omega)
      (by linarith) (by linarith)
  | succ jj ih =>
    intro fuel t x y err hx hyy hE0 hE1 hC0 hC1 hfuel
    cases fuel with
    | zero => omega
    | succ f =>
      have hbrk : ¬(x = x1 ∧ y = y1) := by
        rintro ⟨hxx, _⟩
        rcases hsx with hh | hh <;> rw [hh] at hx <;> push_cast at hx <;> omega
      by_cases hyd : err < dy
      · have ht1 : 1 ≤ t := by
          by_contra hc
          have ht0 : t = 0 := by omega
          subst ht0
          have hg : dy ≤ ((jj : Int) + 1) * dy := le_mul_of_one_le_left hdy0 (by omega)
          push_cast at hC0
          linarith
        have hstep : lineStep dx dy sx sy (x, y, err) = (x + sx, y + sy, err - dy + dx) := by
          simp only [lineStep]
          split_ifs <;> first | rfl | (exfalso; omega)
        have hstep1 : (lineStep dx dy sx sy (x, y, err)).1 = x + sx := by rw [hstep]
        have hstep2 : (lineStep dx dy sx sy (x, y, err)).2.1 = y + sy := by rw [hstep]
        have hstep3 : (lineStep dx dy sx sy (x, y, err)).2.2 = err - dy + dx := by rw [hstep]
        have hx' : x + sx = x1 - (jj : Int) * sx := by
          push_cast at hx
          linarith
        have hy' : y + sy = y1 - ((t - 1 : Nat) : Int) * sy := by
          push_cast [Nat.cast_sub ht1] at hyy ⊢
          linarith
        have hE0' : (0 : Int) ≤ err - dy + dx := by linarith
        have hE1' : err - dy + dx < dx := by linarith
        have hC0' : 0 ≤ (err - dy + dx) + ((t - 1 : Nat) : Int) * dx - (jj : Int) * dy := by
          push_cast [Nat.cast_sub ht1] at hC0 ⊢
          linarith
        have hC1' : (err - dy + dx) + ((t - 1 : Nat) : Int) * dx - (jj : Int) * dy < dx := by
          push_cast [Nat.cast_sub ht1] at hC1 ⊢
          linarith
        simp only [linePtsLoop]
        rw [if_neg hbrk, hstep1, hstep2, hstep3]
        exact ih f (t - 1) (x + sx) (y + sy) (err - dy + dx)
          hx' hy' hE0' hE1' hC0' hC1' (by omega)
      · have hstep : lineStep dx dy sx sy (x, y, err) = (x + sx, y, err - dy) := by
          simp only [lineStep]
          split_ifs <;> first | rfl | (exfalso; omega)
        have hstep1 : (lineStep dx dy sx sy (x, y, err)).1 = x + sx := by rw [hstep]
        have hstep2 : (lineStep dx dy sx sy (x, y, err)).2.1 = y := by rw [hstep]
        have hstep3 : (lineStep dx dy sx sy (x, y, err)).2.2 = err - dy := by rw [hstep]
        have hx' : x + sx = x1 - (jj : Int) * sx := by
          push_cast at hx
          linarith
        have hE0' : (0 : Int) ≤ err - dy := by omega
        have hE1' : err - dy < dx := by omega
        have hC0' : 0 ≤ (err - dy) + (t : Int) * dx - (jj : Int) * dy := by
          push_cast at hC0 ⊢
          linarith
        have hC1' : (err - dy) + (t : Int) * dx - (jj : Int) * dy < dx := by
          push_cast at hC1 ⊢
          linarith
        simp only [linePtsLoop]
        rw [if_neg hbrk, hstep1, hstep2, hstep3]
        exact ih f t (x + sx) y (err - dy) hx' hyy hE0' hE1' hC0' hC1' (by omega)

theorem linePts_reach_ymajor (ww wh : Nat) (dx dy sx sy x1 y1 : Int)
    (hdy1 : 1 ≤ dy) (hdx0 : 0 ≤ dx) (hmaj : dx < dy)
    (hsx : sx = 1 ∨ sx = -1) (hsy : sy = 1 ∨ sy = -1) :
    ∀ (t : Nat), ∀ (fuel j : Nat) (x y err : Int),
      x = x1 - (j : Int) * sx → y = y1 - (t : Int) * sy →
      -dy < err → err ≤ 0 →
      0 ≤ -err + (j : Int) * dy - (t : Int) * dx →
      -err + (j : Int) * dy - (t : Int) * dx < dy →
      t + 1 ≤ fuel →
      (linePtsLoop ww wh dx dy sx sy x1 y1 fuel x y err).2 = true := by
  intro t
  induction t with
  | zero =>
    intro fuel j x y err hx hyy hE0 hE1 hC0 hC1 hfuel
    have hj0 : j = 0 := by
      by_contra hc
      have hg : dy ≤ (j : Int) * dy := le_mul_of_one_le_left (by omega) (by omega)
      push_cast at hC1
      linarith
    subst hj0
    push_cast at hx hyy
    exact linePtsLoop_break ww wh dx dy sx sy x1 y1 fuel x y err (by omega)
      (by linarith) (by linarith)
  | succ tt ih =>
    intro fuel j x y err hx hyy hE0 hE1 hC0 hC1 hfuel
    cases fuel with
    | zero => omega
    | succ f =>
      have hbrk : ¬(x = x1 ∧ y = y1) := by
        rintro ⟨_, hyy1⟩
        rcases hsy with hh | hh <;> rw [hh] at hyy <;> push_cast at hyy <;> omega
      by_cases hxadv : -dx < err
      · have hj1 : 1 ≤ j := by
          by_contra hc
          have hj0 : j = 0 := by omega
          subst hj0
          have hg : dx ≤ ((tt : Int) + 1) * dx := le_mul_of_one_le_left hdx0 (by omega)
          push_cast at hC0
          linarith
        have hstep : lineStep dx dy sx sy (x, y, err) = (x + sx, y + sy, err - dy + dx) := by
          simp only [lineStep]
          split_ifs <;> first | rfl | (exfalso; omega)
        have hstep1 : (lineStep dx dy sx sy (x, y, err)).1 = x + sx := by rw [hstep]
        have hstep2 : (lineStep dx dy sx sy (x, y, err)).2.1 = y + sy := by rw [hstep]
        have hstep3 : (lineStep dx dy sx sy (x, y, err)).2.2 = err - dy + dx := by rw [hstep]
        have hx' : x + sx = x1 - ((j - 1 : Nat) : Int) * sx := by
          push_cast [Nat.cast_sub hj1] at hx ⊢
          linarith
        have hy' : y + sy = y1 - (tt : Int) * sy := by
          push_cast at hyy
          linarith
        have hE0' : -dy < err - dy + dx := by linarith
        have hE1' : err - dy + dx ≤ 0 := by linarith
        have hC0' : 0 ≤ -(err - dy + dx) + ((j - 1 : Nat) : Int) * dy - (tt : Int) * dx := by
          push_cast [Nat.cast_sub hj1] at hC0 ⊢
          linarith
        have hC1' : -(err - dy + dx) + ((j - 1 : Nat) : Int) * dy - (tt : Int) * dx < dy := by
          push_cast [Nat.cast_sub hj1] at hC1 ⊢
          linarith
        simp only [linePtsLoop]
        rw [if_neg hbrk, hstep1, hstep2, hstep3]
        exact ih f (j - 1) (x + sx) (y + sy) (err - dy + dx)
          hx' hy' hE0' hE1' hC0' hC1' (by omega)
      · have hstep : lineStep dx dy sx sy (x, y, err) = (x, y + sy, err + dx) := by
          simp only [lineStep]
          split_ifs <;> first | rfl | (exfalso; omega)
        have hstep1 : (lineStep dx dy sx sy (x, y, err)).1 = x := by rw [hstep]
        have hstep2 : (lineStep dx dy sx sy (x, y, err)).2.1 = y + sy := by rw [hstep]
        have hstep3 : (lineStep dx dy sx sy (x, y, err)).2.2 = err + dx := by rw [hstep]
        have hy' : y + sy = y1 - (tt : Int) * sy := by
          push_cast at hyy
          linarith
        have hE0' : -dy < err + dx := by linarith
        have hE1' : err + dx ≤ 0 := by omega
        have hC0' : 0 ≤ -(err + dx) + (j : Int) * dy - (tt : Int) * dx := by
          push_cast at hC0 ⊢
          linarith
        have hC1' : -(err + dx) + (j : Int) * dy - (tt : Int) * dx < dy := by
          push_cast at hC1 ⊢
          linarith
        simp only [linePtsLoop]
        rw [if_neg hbrk, hstep1, hstep2, hstep3]
        exact ih f j x (y + sy) (err + dx) hx hy' hE0' hE1' hC0' hC1' (by omega)

theorem linePts_reach_diag (ww wh : Nat) (d sx sy x1 y1 : Int)
    (hd1 : 1 ≤ d) (hsx : sx = 1 ∨ sx = -1) (hsy : sy = 1 ∨ sy = -1) :
    ∀ (j : Nat), ∀ (fuel : Nat) (x y err : Int),
      x = x1 - (j : Int) * sx → y = y1 - (j : Int) * sy →
      -d < err → err ≤ 0 →
      j + 1 ≤ fuel →
      (linePtsLoop ww wh d d sx sy x1 y1 fuel x y err).2 = true := by
  intro j
  induction j with
  | zero =>
    intro fuel x y err hx hyy hE0 hE1 hfuel
    push_cast at hx hyy
    exact linePtsLoop_break ww wh d d sx sy x1 y1 fuel x y err (by omega)
      (by linarith) (by linarith)
  | succ jj ih =>
    intro fuel x y err hx hyy hE0 hE1 hfuel
    cases fuel with
    | zero => omega
    | succ f =>
      have hbrk : ¬(x = x1 ∧ y = y1) := by
        rintro ⟨hxx, _⟩
        rcases hsx with hh | hh <;> rw [hh] at hx <;> push_cast at hx <;> omega
      have hstep : lineStep d d sx sy (x, y, err) = (x + sx, y + sy, err - d + d) := by
        simp only [lineStep]
        split_ifs <;> first | rfl | (exfalso; omega)
      have hstep1 : (lineStep d d sx sy (x, y, err)).1 = x + sx := by rw [hstep]
      have hstep2 : (lineStep d d sx sy (x, y, err)).2.1 = y + sy := by rw [hstep]
      have hstep3 : (lineStep d d sx sy (x, y, err)).2.2 = err - d + d := by rw [hstep]
      have hx' : x + sx = x1 - (jj : Int) * sx := by
        push_cast at hx
        linarith
      have hy' : y + sy = y1 - (jj : Int) * sy := by
        push_cast at hyy
        linarith
      simp only [linePtsLoop]
      rw [if_neg hbrk, hstep1, hstep2, hstep3]
      exact ih f (x + sx) (y + sy) (err - d + d) hx' hy' (by linarith) (by linarith)
        (by omega)

theorem linePts_reach (ww wh : Nat) (x0 y0 x1 y1 : Int) :
    (linePtsLoop ww wh (lineDx x0 x1) (lineDx y0 y1) (lineSx x0 x1) (lineSx y0 y1)
      x1 y1 (lineFuel (lineDx x0 x1) (lineDx y0 y1)) x0 y0
      (lineErr0 (lineDx x0 x1) (lineDx y0 y1))).2 = true := by
  have hdx0 : 0 ≤ lineDx x0 x1 := by unfold lineDx; split <;> omega
  have hdy0 : 0 ≤ lineDx y0 y1 := by unfold lineDx; split <;> omega
  have hsx : lineSx x0 x1 = 1 ∨ lineSx x0 x1 = -1 := by
    unfold lineSx
    split
    · exact Or.inl rfl
    · exact Or.inr rfl
  have hsy : lineSx y0 y1 = 1 ∨ lineSx y0 y1 = -1 := by
    unfold lineSx
    split
    · exact Or.inl rfl
    · exact Or.inr rfl
  have hc1 : ((lineDx x0 x1).toNat : Int) = lineDx x0 x1 := Int.toNat_of_nonneg hdx0
  have hc2 : ((lineDx y0 y1).toNat : Int) = lineDx y0 y1 := Int.toNat_of_nonneg hdy0
  have hxrel : x0 = x1 - ((lineDx x0 x1).toNat : Int) * lineSx x0 x1 := by
    rw [hc1]
    unfold lineDx lineSx
    split <;> split <;> first | ring1 | omega
  have hyrel : y0 = y1 - ((lineDx y0 y1).toNat : Int) * lineSx y0 y1 := by
    rw [hc2]
    unfold lineDx lineSx
    split <;> split <;> first | ring1 | omega
  rcases lt_trichotomy (lineDx x0 x1) (lineDx y0 y1) with h | h | h
  · have he : lineErr0 (lineDx x0 x1) (lineDx y0 y1) = -(lineDx y0 y1 / 2) := by
      unfold lineErr0
      rw [if_neg (by omega), Int.neg_tdiv, Int.tdiv_eq_ediv (by omega) (by omega)]
    have hdiv0 : 0 ≤ lineDx y0 y1 / 2 := by omega
    have hdiv1 : lineDx y0 y1 / 2 < lineDx y0 y1 := by omega
    exact linePts_reach_ymajor ww wh (lineDx x0 x1) (lineDx y0 y1) (lineSx x0 x1)
      (lineSx y0 y1) x1 y1 (by omega) hdx0 h hsx hsy
      (lineDx y0 y1).toNat (lineFuel (lineDx x0 x1) (lineDx y0 y1)) (lineDx x0 x1).toNat
      x0 y0 (lineErr0 (lineDx x0 x1) (lineDx y0 y1)) hxrel hyrel
      (by rw [he]; omega) (by rw [he]; omega)
      (by rw [he, hc1, hc2]; linarith [mul_comm (lineDx x0 x1) (lineDx y0 y1)])
      (by rw [he, hc1, hc2]; linarith [mul_comm (lineDx x0 x1) (lineDx y0 y1)])
      (by unfold lineFuel; omega)
  · by_cases hz : lineDx y0 y1 = 0
    · have hz1 : lineDx x0 x1 = 0 := by omega
      have hx1 : x0 = x1 := by
        unfold lineDx at hz1
        split at hz1 <;> omega
      have hy1 : y0 = y1 := by
        unfold lineDx at hz
        split at hz <;> omega
      exact linePtsLoop_break ww wh _ _ _ _ x1 y1 _ x0 y0 _
        (by unfold lineFuel; omega) hx1 hy1
    · have he2 : lineErr0 (lineDx y0 y1) (lineDx y0 y1) = -(lineDx y0 y1 / 2) := by
        unfold lineErr0
        rw [if_neg (by omega), Int.neg_tdiv, Int.tdiv_eq_ediv (by omega) (by omega)]
      rw [h] at hxrel ⊢
      exact linePts_reach_diag ww wh (lineDx y0 y1) (lineSx x0 x1) (lineSx y0 y1) x1 y1
        (by omega) hsx hsy (lineDx y0 y1).toNat
        (lineFuel (lineDx y0 y1) (lineDx y0 y1)) x0 y0
        (lineErr0 (lineDx y0 y1) (lineDx y0 y1)) hxrel hyrel
        (by rw [he2]; omega) (by rw [he2]; omega)
        (by unfold lineFuel; omega)
  · have he : lineErr0 (lineDx x0 x1) (lineDx y0 y1) = lineDx x0 x1 / 2 := by
      unfold lineErr0
      rw [if_pos (by omega), Int.tdiv_eq_ediv (by omega) (by omega)]
    have hdiv0 : 0 ≤ lineDx x0 x1 / 2 := by omega
    have hdiv1 : lineDx x0 x1 / 2 < lineDx x0 x1 := by omega
    exact linePts_reach_xmajor ww wh (lineDx x0 x1) (lineDx y0 y1) (lineSx x0 x1)
      (lineSx y0 y1) x1 y1 (by omega) hdy0 h hsx hsy
      (lineDx x0 x1).toNat (lineFuel (lineDx x0 x1) (lineDx y0 y1)) (lineDx y0 y1).toNat
      x0 y0 (lineErr0 (lineDx x0 x1) (lineDx y0 y1)) hxrel hyrel
      (by rw [he]; omega) (by rw [he]; omega)
      (by rw [he, hc1, hc2]; linarith [mul_comm (lineDx x0 x1) (lineDx y0 y1)])
      (by rw [he, hc1, hc2]; linarith [mul_comm (lineDx x0 x1) (lineDx y0 y1)])
      (by unfold lineFuel; omega)

/-- C8: for endpoints whose coordinate deltas are i16-representable, the
Bresenham walk of `draw_line` terminates: within the `dx + dy + 1` fuel
bound it reaches `(x1, y1)` (the loop completion flag is true), and on a
fault-free bus `draw_line` returns success, having plotted in order
exactly the walk's in-window pixels and skipped the out-of-window ones. -/
theorem C8_bresenham_terminates (x0 y0 x1 y1 : Int) (c : Nat) (s : Lcd)
    (hdxb : (x1 - x0).natAbs ≤ 32767) (hdyb : (y1 - y0).natAbs ≤ 32767)
    (hdc : s.world.dcFail = false) (hspi : s.world.spiFail = none) :
    (linePtsLoop s.windowWidth s.windowHeight (lineDx x0 x1) (lineDx y0 y1)
        (lineSx x0 x1) (lineSx y0 y1) x1 y1
        (lineFuel (lineDx x0 x1) (lineDx y0 y1)) x0 y0
        (lineErr0 (lineDx x0 x1) (lineDx y0 y1))).2 = true ∧
    drawLine x0 y0 x1 y1 c s =
      (.ok (), s,
        (linePtsLoop s.windowWidth s.windowHeight (lineDx x0 x1) (lineDx y0 y1)
            (lineSx x0 x1) (lineSx y0 y1) x1 y1
            (lineFuel (lineDx x0 x1) (lineDx y0 y1)) x0 y0
            (lineErr0 (lineDx x0 x1) (lineDx y0 y1))).1.flatMap
          fun p => pixelEvs p.1 p.2 c) := by
  constructor
  · exact linePts_reach s.windowWidth s.windowHeight x0 y0 x1 y1
  · have hrun := drawLineLoop_run (lineDx x0 x1) (lineDx y0 y1) (lineSx x0 x1)
      (lineSx y0 y1) x1 y1 c s hdc hspi (lineFuel (lineDx x0 x1) (lineDx y0 y1))
      x0 y0 (lineErr0 (lineDx x0 x1) (lineDx y0 y1))
    rw [show drawLine x0 y0 x1 y1 c = M.bind
      (drawLineLoop (lineDx x0 x1) (lineDx y0 y1) (lineSx x0 x1) (lineSx y0 y1) x1 y1 c
        (lineFuel (lineDx x0 x1) (lineDx y0 y1)) x0 y0
        (lineErr0 (lineDx x0 x1) (lineDx y0 y1)))
      (fun _ => M.pure ()) from rfl]
    rw [M_bind_ok hrun]
    simp [M.pure]

/-- Witness: the claim theorem applied to the line from (0,0) to (7,3)
on the freshly constructed display. -/
theorem C8_bresenham_terminates_witness :
    (((7 : Int) - 0).natAbs ≤ 32767 ∧ ((3 : Int) - 0).natAbs ≤ 32767) ∧
    ((linePtsLoop 240 240 (lineDx 0 7) (lineDx 0 3) (lineSx 0 7) (lineSx 0 3) 7 3
        (lineFuel (lineDx 0 7) (lineDx 0 3)) 0 0
        (lineErr0 (lineDx 0 7) (lineDx 0 3))).2 = true ∧
      drawLine 0 0 7 3 5 lcd240 =
        (.ok (), lcd240,
          (linePtsLoop 240 240 (lineDx 0 7) (lineDx 0 3) (lineSx 0 7) (lineSx 0 3) 7 3
              (lineFuel (lineDx 0 7) (lineDx 0 3)) 0 0
              (lineErr0 (lineDx 0 7) (lineDx 0 3))).1.flatMap
            fun p => pixelEvs p.1 p.2 5)) :=
  ⟨⟨by decide, by decide⟩,
    C8_bresenham_terminates 0 0 7 3 5 lcd240 (by decide) (by decide) rfl rfl⟩

end C8

end Atk
